import Mathlib

set_option maxRecDepth 100000
set_option maxHeartbeats 1000000

/-!
Verification of the Markdown-to-HTML conversion engine in `convert-docs.py`.

The engine `convert_md_to_html` is a pipeline of text-rewriting passes built
on Python `re.sub`.  We embed it shallowly: text is a `List Char`, each
regex substitution becomes an executable left-to-right scanner that mirrors
the (backtracking-free in these cases) semantics of the concrete pattern,
and the line-oriented list pass becomes an explicit fold.  Character classes
(`\w`, `\s`, `str.lower`, `str.strip`) are modelled at ASCII level; the
documents this tool processes, and all inputs in the claims, are ASCII apart
from the four status glyphs, which are modelled explicitly.
-/

/-- Python `\s` / `str.strip` whitespace at ASCII level. -/
def isWsPy (c : Char) : Bool :=
  c = ' ' || c = '\t' || c = '\n' || c = '\r' || c = '\x0b' || c = '\x0c'

/-- Python `\w` (word character) at ASCII level. -/
def wordCharPy (c : Char) : Bool := c.isAlphanum || c = '_'

/-- Python `str.strip()` (ASCII whitespace). -/
def pyStrip (l : List Char) : List Char :=
  ((l.dropWhile isWsPy).reverse.dropWhile isWsPy).reverse

/-- Python `str.split(sep)` for a one-character separator. -/
def splitOnC (c : Char) : List Char → List (List Char)
  | [] => [[]]
  | x :: xs =>
    match splitOnC c xs with
    | [] => [[]]
    | h :: t => if x = c then [] :: h :: t else (x :: h) :: t

/-- `sep.join(...)` for a one-character separator, inverse of `splitOnC`. -/
def joinC (c : Char) : List (List Char) → List Char
  | [] => []
  | [l] => l
  | l :: l2 :: ls => l ++ c :: joinC c (l2 :: ls)

/--
Generic `re.sub` scanner.  `f` tries to match the pattern at the head of the
remaining text, returning the replacement text and the rest of the input
after the match.  On a match the scanner emits the replacement and resumes
after the match; otherwise it emits one character and advances, which is
exactly `re.sub`'s leftmost, non-overlapping behaviour.  `fuel` bounds the
recursion; every pattern below consumes at least one character on a match,
so `fuel = l.length` (as used by `runSub`) never runs out.
-/
def subScan (f : List Char → Option (List Char × List Char)) :
    Nat → List Char → List Char
  | 0, l => l
  | _ + 1, [] => []
  | fuel + 1, c :: cs =>
    match f (c :: cs) with
    | some (rep, rest) => rep ++ subScan f fuel rest
    | none => c :: subScan f fuel cs

def runSub (f : List Char → Option (List Char × List Char)) (l : List Char) :
    List Char :=
  subScan f l.length l

/-!  ## Pass 1: headings (lines 57-60 of the source)

Four `re.MULTILINE` substitutions `^# (.+)$` .. `^#### (.+)$` applied in
sequence.  Since matches are whole-line, `.` excludes the newline, and no
replacement introduces a line that another heading pattern could match, the
four substitutions are equivalent to a single per-line classification. -/

def headerLine (l : List Char) : List Char :=
  if "# ".data.isPrefixOf l && !(l.drop 2).isEmpty then
    "<h1>".data ++ l.drop 2 ++ "</h1>".data
  else if "## ".data.isPrefixOf l && !(l.drop 3).isEmpty then
    "<h2 id=\"".data ++ l.drop 3 ++ "\">".data ++ l.drop 3 ++ "</h2>".data
  else if "### ".data.isPrefixOf l && !(l.drop 4).isEmpty then
    "<h3>".data ++ l.drop 4 ++ "</h3>".data
  else if "#### ".data.isPrefixOf l && !(l.drop 5).isEmpty then
    "<h4>".data ++ l.drop 5 ++ "</h4>".data
  else l

def headersPassL (l : List Char) : List Char :=
  joinC '\n' ((splitOnC '\n' l).map headerLine)

/-!  ## Pass 2: `make_id` (lines 62-67)

`re.sub(r'<h2 id="([^"]+)">([^<]+)</h2>', make_id, html)` where `make_id`
rewrites the id to `re.sub(r'[^\w\s-]', '', text.lower()).replace(' ', '-')`
of group 1 and — as in the source — also emits group 1 (not group 2) as the
element body.  `[^"]+` runs to the first `"` and then `">` must follow
immediately; `[^<]+` runs to the first `<` and then `</h2>` must follow;
neither class can backtrack past its stop character. -/

def make_id_slug (l : List Char) : List Char :=
  (((l.map Char.toLower).filter
      (fun c => wordCharPy c || isWsPy c || c = '-')).map
    (fun c => if c = ' ' then '-' else c))

def tryH2 (l : List Char) : Option (List Char × List Char) :=
  if "<h2 id=\"".data.isPrefixOf l then
    let l1 := l.drop 8
    let a := l1.takeWhile (fun c => c != '"')
    if a.isEmpty then none else
    match l1.dropWhile (fun c => c != '"') with
    | '"' :: '>' :: l2 =>
      let b := l2.takeWhile (fun c => c != '<')
      let r2 := l2.dropWhile (fun c => c != '<')
      if !b.isEmpty && "</h2>".data.isPrefixOf r2 then
        some ("<h2 id=\"".data ++ make_id_slug a ++ "\">".data ++ a ++
              "</h2>".data, r2.drop 5)
      else none
    | _ => none
  else none

/-!  ## Pass 3: fenced code blocks (line 70)

`re.sub(r'```(\w+)?\n(.*?)```', r'<pre><code>\2</code></pre>', html,
flags=re.DOTALL)`: three backticks, an optional word run (the language tag,
discarded), a newline, then the lazy interior up to the first closing
triple backtick. -/

def findFenceClose : List Char → Option (List Char × List Char)
  | [] => none
  | c :: cs =>
    if "```".data.isPrefixOf (c :: cs) then some ([], (c :: cs).drop 3)
    else
      match findFenceClose cs with
      | some (i, r) => some (c :: i, r)
      | none => none

def tryFence (l : List Char) : Option (List Char × List Char) :=
  if "```".data.isPrefixOf l then
    match (l.drop 3).dropWhile wordCharPy with
    | '\n' :: body =>
      match findFenceClose body with
      | some (interior, rest) =>
        some ("<pre><code>".data ++ interior ++ "</code></pre>".data, rest)
      | none => none
    | _ => none
  else none

/-!  ## Pass 4: inline code (line 73): `re.sub(r'`([^`]+)`', ...)`. -/

def tryInlineCode : List Char → Option (List Char × List Char)
  | '`' :: rest =>
    let c := rest.takeWhile (fun c => c != '`')
    match rest.dropWhile (fun c => c != '`') with
    | '`' :: r2 => if c.isEmpty then none else
        some ("<code>".data ++ c ++ "</code>".data, r2)
    | _ => none
  | _ => none

/-!  ## Passes 5-6: bold and italic (lines 76, 79)

`\*\*(.+?)\**\*` and `\*(.+?)\*` with lazy content: the content is the
shortest nonempty newline-free span after which the closing marker
appears. -/

def boldClose : List Char → Option (List Char × List Char)
  | [] => none
  | c :: cs =>
    if c = '\n' then none
    else if "**".data.isPrefixOf cs then some ([c], cs.drop 2)
    else
      match boldClose cs with
      | some (i, r) => some (c :: i, r)
      | none => none

def tryBold : List Char → Option (List Char × List Char)
  | '*' :: '*' :: rest =>
    match boldClose rest with
    | some (content, r) =>
      some ("<strong>".data ++ content ++ "</strong>".data, r)
    | none => none
  | _ => none

def italClose : List Char → Option (List Char × List Char)
  | [] => none
  | c :: cs =>
    if c = '\n' then none
    else
      match cs with
      | '*' :: r => some ([c], r)
      | _ =>
        match italClose cs with
        | some (i, r) => some (c :: i, r)
        | none => none

def tryItalic : List Char → Option (List Char × List Char)
  | '*' :: rest =>
    match italClose rest with
    | some (content, r) => some ("<em>".data ++ content ++ "</em>".data, r)
    | none => none
  | _ => none

/-!  ## Pass 7: links (line 82): `re.sub(r'\[([^\]]+)\]\(([^)]+)\)', ...)`. -/

def tryLink : List Char → Option (List Char × List Char)
  | '[' :: rest =>
    let t := rest.takeWhile (fun c => c != ']')
    match rest.dropWhile (fun c => c != ']') with
    | ']' :: '(' :: r2 =>
      let u := r2.takeWhile (fun c => c != ')')
      match r2.dropWhile (fun c => c != ')') with
      | ')' :: r3 =>
        if t.isEmpty || u.isEmpty then none
        else some ("<a href=\"".data ++ u ++ "\">".data ++ t ++ "</a>".data, r3)
      | _ => none
    | _ => none
  | _ => none

/-!  ## Pass 8: the list scan (lines 85-126)

A fold over the lines.  `in_list` in the source is `False`, `True` (set when
a checklist or plain bullet opens a container) or `'ol'` (set when an
ordered container opens); checklist and ordered items arriving while some
container is already open do not open a new one and do not change the
state, exactly as in the source. -/

inductive LKind where
  | closed
  | ulOpen
  | olOpen
deriving DecidableEq, Repr

def closeTagOf (st : LKind) : List Char :=
  if st = LKind.olOpen then "</ol>".data else "</ul>".data

/-- `re.sub(r'^- \[ \] (.+)$', ...)` applied to a guard-matched line; if the
line is exactly `- [ ]` (no trailing text) the sub does not match and the
raw line is kept, as in Python. -/
def checklistItemU (l : List Char) : List Char :=
  if "- [ ] ".data.isPrefixOf l && !(l.drop 6).isEmpty then
    "<li><input type=\"checkbox\" id=\"item-".data ++ l.drop 6 ++
    "\"><label for=\"item-".data ++ l.drop 6 ++ "\">".data ++ l.drop 6 ++
    "</label></li>".data
  else l

def checklistItemX (l : List Char) : List Char :=
  if "- [x] ".data.isPrefixOf l && !(l.drop 6).isEmpty then
    "<li><input type=\"checkbox\" id=\"item-".data ++ l.drop 6 ++
    "\" checked><label for=\"item-".data ++ l.drop 6 ++ "\">".data ++
    l.drop 6 ++ "</label></li>".data
  else l

/-- `re.match(r'^\d+\. (.+)$', line)`: maximal digit run, then `. `, then a
nonempty newline-free rest (lines contain no newline). -/
def orderedRest (l : List Char) : Option (List Char) :=
  if (l.takeWhile Char.isDigit).isEmpty then none
  else
    match l.dropWhile Char.isDigit with
    | '.' :: ' ' :: rest => if rest.isEmpty then none else some rest
    | _ => none

def listStep (st : LKind) (line : List Char) : LKind × List (List Char) :=
  if "- [ ]".data.isPrefixOf line then
    if st = LKind.closed then
      (LKind.ulOpen, ["<ul class=\"checklist\">".data, checklistItemU line])
    else (st, [checklistItemU line])
  else if "- [x]".data.isPrefixOf line then
    if st = LKind.closed then
      (LKind.ulOpen, ["<ul class=\"checklist\">".data, checklistItemX line])
    else (st, [checklistItemX line])
  else if "- ".data.isPrefixOf line && !(line.drop 2).isEmpty then
    if st = LKind.closed then
      (LKind.ulOpen, ["<ul>".data, "<li>".data ++ line.drop 2 ++ "</li>".data])
    else (st, ["<li>".data ++ line.drop 2 ++ "</li>".data])
  else
    match orderedRest line with
    | some rest =>
      if st = LKind.closed then
        (LKind.olOpen, ["<ol>".data, "<li>".data ++ rest ++ "</li>".data])
      else (st, ["<li>".data ++ rest ++ "</li>".data])
    | none =>
      if st = LKind.closed then (LKind.closed, [line])
      else (LKind.closed, [closeTagOf st, line])

def listScan (st : LKind) : List (List Char) → List (List Char)
  | [] => if st = LKind.closed then [] else [closeTagOf st]
  | ln :: rest =>
    (listStep st ln).2 ++ listScan (listStep st ln).1 rest

def listPassL (l : List Char) : List Char :=
  joinC '\n' (listScan LKind.closed (splitOnC '\n' l))

/-!  ## Pass 9: paragraphs (lines 128-130)

`re.sub(r'\n\n+', '\n</p>\n<p>\n', html)` — each maximal run of two or more
newlines is replaced — then the whole text is wrapped in `<p>...</p>`. -/

def paraScanF : Nat → List Char → List Char
  | 0, l => l
  | _ + 1, [] => []
  | f + 1, '\n' :: '\n' :: rest =>
    "\n</p>\n<p>\n".data ++ paraScanF f (rest.dropWhile (fun c => c = '\n'))
  | f + 1, c :: cs => c :: paraScanF f cs

/-- `re.sub(r'\n\n+', '\n</p>\n<p>\n', html)`.  As with `subScan`, the fuel
`l.length` never runs out because each step consumes at least one
character. -/
def paraScan (l : List Char) : List Char := paraScanF l.length l

def paraPassL (l : List Char) : List Char :=
  "<p>".data ++ paraScan l ++ "</p>".data

/-!  ## Pass 10: cleanup (lines 133-141), nine substitutions in order. -/

def tryPWsPClose (l : List Char) : Option (List Char × List Char) :=
  if "<p>".data.isPrefixOf l then
    match (l.drop 3).dropWhile isWsPy with
    | r =>
      if "</p>".data.isPrefixOf r then some ([], r.drop 4) else none
  else none

def digit16 (c : Char) : Bool :=
  c = '1' || c = '2' || c = '3' || c = '4' || c = '5' || c = '6'

def tryPOpenH (l : List Char) : Option (List Char × List Char) :=
  if "<p>".data.isPrefixOf l then
    match (l.drop 3).dropWhile isWsPy with
    | '<' :: 'h' :: d :: r2 =>
      if digit16 d then
        some ((l.drop 3).takeWhile isWsPy ++ ['<', 'h', d], r2)
      else none
    | _ => none
  else none

def tryHCloseP (l : List Char) : Option (List Char × List Char) :=
  match l with
  | '<' :: '/' :: 'h' :: d :: '>' :: r =>
    if digit16 d then
      match r.dropWhile isWsPy with
      | r2 =>
        if "</p>".data.isPrefixOf r2 then
          some (['<', '/', 'h', d, '>'], r2.drop 4)
        else none
    else none
  | _ => none

def tryPOpenBlock (tag : List Char) (l : List Char) :
    Option (List Char × List Char) :=
  if "<p>".data.isPrefixOf l then
    match (l.drop 3).dropWhile isWsPy with
    | r =>
      if tag.isPrefixOf r then
        some ((l.drop 3).takeWhile isWsPy ++ tag, r.drop tag.length)
      else none
  else none

def tryBlockCloseP (tag : List Char) (l : List Char) :
    Option (List Char × List Char) :=
  if tag.isPrefixOf l then
    match (l.drop tag.length).dropWhile isWsPy with
    | r2 =>
      if "</p>".data.isPrefixOf r2 then some (tag, r2.drop 4) else none
  else none

def cleanupL (l : List Char) : List Char :=
  runSub (tryBlockCloseP "</ol>".data)
    (runSub (tryPOpenBlock "<ol".data)
      (runSub (tryBlockCloseP "</ul>".data)
        (runSub (tryPOpenBlock "<ul".data)
          (runSub (tryBlockCloseP "</pre>".data)
            (runSub (tryPOpenBlock "<pre".data)
              (runSub tryHCloseP
                (runSub tryPOpenH
                  (runSub tryPWsPClose l))))))))

/-!  ## Pass 11: status badges (lines 144-147). -/

def tryBadgeOk : List Char → Option (List Char × List Char)
  | '✅' :: r => some ("<span class=\"badge badge-success\">✅</span>".data, r)
  | _ => none

def tryBadgeX : List Char → Option (List Char × List Char)
  | '❌' :: r => some ("<span class=\"badge badge-danger\">❌</span>".data, r)
  | _ => none

def tryBadgeWarn : List Char → Option (List Char × List Char)
  | '⚠' :: '\uFE0F' :: r =>
    some ("<span class=\"badge badge-warning\">".data ++ ['⚠', '\uFE0F'] ++
          "</span>".data, r)
  | _ => none

def tryBadgeProg : List Char → Option (List Char × List Char)
  | '🔄' :: r => some ("<span class=\"badge badge-info\">🔄</span>".data, r)
  | _ => none

def badgesL (l : List Char) : List Char :=
  runSub tryBadgeProg
    (runSub tryBadgeWarn (runSub tryBadgeX (runSub tryBadgeOk l)))

/-!  ## Pass 12: tables (lines 150-183)

The pattern `\n(\|.+\|\n)+` matches a newline followed by a maximal
nonempty run of lines that start and end with `|` (length at least 3) and
are newline-terminated; the matched text (leading newline included) is fed
to `convert_table` and the result re-wrapped in newlines. -/

def rowLine (l : List Char) : Option (List Char × List Char) :=
  match l with
  | '|' :: _ =>
    let content := l.takeWhile (fun c => c != '\n')
    match l.dropWhile (fun c => c != '\n') with
    | '\n' :: r2 =>
      if content.length ≥ 3 && content.getLast? = some '|' then
        some (content ++ ['\n'], r2)
      else none
    | _ => none
  | _ => none

def rowsScanF : Nat → List Char → List Char × List Char
  | 0, l => ([], l)
  | f + 1, l =>
    match rowLine l with
    | some (row, rest) =>
      match rowsScanF f rest with
      | (more, r2) => (row ++ more, r2)
    | none => ([], l)

def rowsScan (l : List Char) : List Char × List Char := rowsScanF l.length l

/-- `lines = [l.strip() for l in text.split('\n') if l.strip()]`. -/
def tableLines (text : List Char) : List (List Char) :=
  ((splitOnC '\n' text).map pyStrip).filter (fun l => !l.isEmpty)

/-- `[c.strip() for c in line.split('|') if c.strip()]`. -/
def splitCells (line : List Char) : List (List Char) :=
  ((splitOnC '|' line).map pyStrip).filter (fun c => !c.isEmpty)

/-- Body rows: cells of each line, kept only when nonempty (lines 160-164). -/
def tableRowsOf (ls : List (List Char)) : List (List (List Char)) :=
  ls.filterMap (fun ln =>
    let cells := splitCells ln
    if cells.isEmpty then none else some cells)

def tableHtmlOf (headers : List (List Char)) (rows : List (List (List Char))) :
    List Char :=
  "<table>\n<thead>\n<tr>\n".data ++
  (headers.map (fun h => "<th>".data ++ h ++ "</th>\n".data)).flatten ++
  "</tr>\n</thead>\n<tbody>\n".data ++
  (rows.map (fun row =>
    "<tr>\n".data ++
    (row.map (fun c => "<td>".data ++ c ++ "</td>\n".data)).flatten ++
    "</tr>\n".data)).flatten ++
  "</tbody>\n</table>".data

def convert_tableL (text : List Char) : List Char :=
  let lines := tableLines text
  if lines.length < 2 then text
  else
    match lines with
    | [] => text
    | l0 :: _ => tableHtmlOf (splitCells l0) (tableRowsOf (lines.drop 2))

def tryTable : List Char → Option (List Char × List Char)
  | '\n' :: rest =>
    match rowsScan rest with
    | (rows, r) =>
      if rows.isEmpty then none
      else some ('\n' :: convert_tableL ('\n' :: rows) ++ ['\n'], r)
  | _ => none

def tablePassL (l : List Char) : List Char := runSub tryTable l

/-!  ## The full engine (lines 52-185). -/

def convertL (l : List Char) : List Char :=
  tablePassL
    (badgesL
      (cleanupL
        (paraPassL
          (listPassL
            (runSub tryLink
              (runSub tryItalic
                (runSub tryBold
                  (runSub tryInlineCode
                    (runSub tryFence
                      (runSub tryH2 (headersPassL l)))))))))))

def convert_md_to_html (s : String) : String := String.mk (convertL s.data)

def convert_table (s : String) : String := String.mk (convert_tableL s.data)

/-!  # Auxiliary definitions for the verification -/

/-- Substring occurrence, used to state counterexamples. -/
def occursIn (pat : List Char) : List Char → Bool
  | [] => pat.isPrefixOf []
  | c :: cs => pat.isPrefixOf (c :: cs) || occursIn pat cs

/-- Helper for `spec_slug`: replace each maximal whitespace run by a single
hyphen (the `Bool` argument records whether the previous kept character was
whitespace). -/
def collapseWsAux : Bool → List Char → List Char
  | _, [] => []
  | prevWs, c :: cs =>
    if isWsPy c then
      if prevWs then collapseWsAux true cs else '-' :: collapseWsAux true cs
    else c :: collapseWsAux false cs

/-- Modelled from the spec: the identifier derivation the spec describes for
level-2 headings — lowercase, strip all characters outside word characters,
whitespace and hyphen, then replace each run of whitespace with a single
hyphen.  Used only to compare the spec wording against the source's
`make_id_slug`. -/
def spec_slug (l : List Char) : List Char :=
  collapseWsAux false
    ((l.map Char.toLower).filter (fun c => wordCharPy c || isWsPy c || c = '-'))

/-!  The instrumented list scan for the container-balance claim: the same fold
as `listStep`/`listScan`, but each emitted string is tagged by its role
(container-open tag, container-close tag, list item, or raw line). -/

inductive Em where
  | openTag (t : List Char)
  | closeTag (t : List Char)
  | item (s : List Char)
  | raw (s : List Char)
deriving DecidableEq, Repr

def renderEm : Em → List Char
  | Em.openTag t => t
  | Em.closeTag t => t
  | Em.item s => s
  | Em.raw s => s

def listStepT (st : LKind) (line : List Char) : LKind × List Em :=
  if "- [ ]".data.isPrefixOf line then
    if st = LKind.closed then
      (LKind.ulOpen,
       [Em.openTag "<ul class=\"checklist\">".data, Em.item (checklistItemU line)])
    else (st, [Em.item (checklistItemU line)])
  else if "- [x]".data.isPrefixOf line then
    if st = LKind.closed then
      (LKind.ulOpen,
       [Em.openTag "<ul class=\"checklist\">".data, Em.item (checklistItemX line)])
    else (st, [Em.item (checklistItemX line)])
  else if "- ".data.isPrefixOf line && !(line.drop 2).isEmpty then
    if st = LKind.closed then
      (LKind.ulOpen,
       [Em.openTag "<ul>".data,
        Em.item ("<li>".data ++ line.drop 2 ++ "</li>".data)])
    else (st, [Em.item ("<li>".data ++ line.drop 2 ++ "</li>".data)])
  else
    match orderedRest line with
    | some rest =>
      if st = LKind.closed then
        (LKind.olOpen,
         [Em.openTag "<ol>".data, Em.item ("<li>".data ++ rest ++ "</li>".data)])
      else (st, [Em.item ("<li>".data ++ rest ++ "</li>".data)])
    | none =>
      if st = LKind.closed then (LKind.closed, [Em.raw line])
      else (LKind.closed, [Em.closeTag (closeTagOf st), Em.raw line])

def listScanT (st : LKind) : List (List Char) → List Em
  | [] => if st = LKind.closed then [] else [Em.closeTag (closeTagOf st)]
  | ln :: rest =>
    (listStepT st ln).2 ++ listScanT (listStepT st ln).1 rest

/-- Balance predicate over an emission trace: `d` is the number of currently
open containers (0 or 1).  It holds when an open tag appears only with no
container open, a close tag only with exactly one open, and no container is
left open at the end. -/
def okFrom : Nat → List Em → Prop
  | d, [] => d = 0
  | d, Em.openTag _ :: tr => d = 0 ∧ okFrom 1 tr
  | d, Em.closeTag _ :: tr => d = 1 ∧ okFrom 0 tr
  | d, Em.item _ :: tr => okFrom d tr
  | d, Em.raw _ :: tr => okFrom d tr

def emDelta (st : LKind) : Nat := if st = LKind.closed then 0 else 1

/-!  Option-instrumented variant of the table pass for the no-crash claim:
the single place the Python engine indexes a list (`lines[0]` in
`convert_table`, guarded by the `len(lines) < 2` test) is modelled with an
explicit `none` for the would-be `IndexError`. -/

def convert_tableLOpt (text : List Char) : Option (List Char) :=
  let lines := tableLines text
  if lines.length < 2 then some text
  else
    match lines with
    | [] => none
    | l0 :: _ => some (tableHtmlOf (splitCells l0) (tableRowsOf (lines.drop 2)))

def tryTableOpt : List Char → Option (Option (List Char) × List Char)
  | '\n' :: rest =>
    match rowsScan rest with
    | (rows, r) =>
      if rows.isEmpty then none
      else
        some ((convert_tableLOpt ('\n' :: rows)).map (fun tb => '\n' :: tb ++ ['\n']), r)
  | _ => none

def subScanOpt : Nat → List Char → Option (List Char)
  | 0, l => some l
  | _ + 1, [] => some []
  | fuel + 1, c :: cs =>
    match tryTableOpt (c :: cs) with
    | some (rep?, rest) =>
      match rep? with
      | none => none
      | some rep => (subScanOpt fuel rest).map (fun t => rep ++ t)
    | none => (subScanOpt fuel cs).map (fun t => c :: t)

def tablePassLOpt (l : List Char) : Option (List Char) := subScanOpt l.length l

def convertLChecked (l : List Char) : Option (List Char) :=
  tablePassLOpt
    (badgesL
      (cleanupL
        (paraPassL
          (listPassL
            (runSub tryLink
              (runSub tryItalic
                (runSub tryBold
                  (runSub tryInlineCode
                    (runSub tryFence
                      (runSub tryH2 (headersPassL l)))))))))))

def convert_md_to_html_checked (s : String) : Option String :=
  (convertLChecked s.data).map String.mk

/-- Decidable head test for a line that no block pass classifies: not a
heading marker, not a bullet or checklist marker, not an ordered-item
digit. -/
def lineOkHead : List Char → Bool
  | [] => true
  | c :: _ => !(c == '#') && !(c == '-') && !c.isDigit

/-- Decidable test: does the text start with two newlines? -/
def startsNN : List Char → Bool
  | '\n' :: '\n' :: _ => true
  | _ => false

/-!  # Infrastructure lemmas -/

theorem subScan_nil (f : List Char → Option (List Char × List Char)) :
    ∀ fuel, subScan f fuel [] = [] := by
  intro fuel
  cases fuel <;> rfl

theorem subScan_cons_none {f : List Char → Option (List Char × List Char)}
    {c : Char} {cs : List Char} (fuel : Nat) (h : f (c :: cs) = none) :
    subScan f (fuel + 1) (c :: cs) = c :: subScan f fuel cs := by
  simp [subScan, h]

theorem subScan_cons_some {f : List Char → Option (List Char × List Char)}
    {c : Char} {cs rep rest : List Char} (fuel : Nat)
    (h : f (c :: cs) = some (rep, rest)) :
    subScan f (fuel + 1) (c :: cs) = rep ++ subScan f fuel rest := by
  simp [subScan, h]

theorem subScan_id_of_suffix_none {f : List Char → Option (List Char × List Char)}
    {l : List Char} (h : ∀ l', l' <:+ l → l' ≠ [] → f l' = none) :
    ∀ fuel, subScan f fuel l = l := by
  induction l with
  | nil => exact subScan_nil f
  | cons c cs ih =>
    intro fuel
    cases fuel with
    | zero => rfl
    | succ n =>
      rw [subScan_cons_none n (h (c :: cs) (List.suffix_refl _) (by simp))]
      rw [ih (fun l' hs hne => h l' (hs.trans (List.suffix_cons c cs)) hne) n]

theorem subScan_id_of_charset {f : List Char → Option (List Char × List Char)}
    (p : Char → Bool)
    (hf : ∀ c cs, p c = true → (∀ x ∈ cs, p x = true) → f (c :: cs) = none)
    {l : List Char} (hl : ∀ x ∈ l, p x = true) :
    ∀ fuel, subScan f fuel l = l := by
  induction l with
  | nil => exact subScan_nil f
  | cons c cs ih =>
    intro fuel
    cases fuel with
    | zero => rfl
    | succ n =>
      rw [subScan_cons_none n
        (hf c cs (hl c (by simp)) (fun x hx => hl x (by simp [hx])))]
      rw [ih (fun x hx => hl x (by simp [hx])) n]

theorem runSub_id_of_suffix_none {f : List Char → Option (List Char × List Char)}
    {l : List Char} (h : ∀ l', l' <:+ l → l' ≠ [] → f l' = none) :
    runSub f l = l :=
  subScan_id_of_suffix_none h l.length

theorem runSub_id_of_charset {f : List Char → Option (List Char × List Char)}
    (p : Char → Bool)
    (hf : ∀ c cs, p c = true → (∀ x ∈ cs, p x = true) → f (c :: cs) = none)
    {l : List Char} (hl : ∀ x ∈ l, p x = true) :
    runSub f l = l :=
  subScan_id_of_charset p hf hl l.length

theorem splitOnC_ne_nil (c : Char) (l : List Char) : splitOnC c l ≠ [] := by
  induction l with
  | nil => simp [splitOnC]
  | cons x xs ih =>
    cases hs : splitOnC c xs with
    | nil => exact absurd hs ih
    | cons h t =>
      simp only [splitOnC, hs]
      split <;> simp

theorem splitOnC_not_mem {c : Char} {l : List Char} (h : c ∉ l) :
    splitOnC c l = [l] := by
  induction l with
  | nil => rfl
  | cons x xs ih =>
    have hx : ¬(x = c) := fun he => h (he ▸ List.mem_cons_self x xs)
    have ih' := ih (fun hm => h (List.mem_cons_of_mem x hm))
    simp only [splitOnC, ih']
    simp [hx]

theorem splitOnC_append_cons {c : Char} {a : List Char} (b : List Char)
    (h : c ∉ a) : splitOnC c (a ++ c :: b) = a :: splitOnC c b := by
  induction a with
  | nil =>
    cases hs : splitOnC c b with
    | nil => exact absurd hs (splitOnC_ne_nil c b)
    | cons hd t =>
      simp only [List.nil_append, splitOnC, hs]
      simp
  | cons x xs ih =>
    have hx : ¬(x = c) := fun he => h (he ▸ List.mem_cons_self x xs)
    have ih' := ih (fun hm => h (List.mem_cons_of_mem x hm))
    simp only [List.cons_append, splitOnC, List.append_eq]
    rw [ih']
    simp [hx]

theorem joinC_splitOnC (c : Char) (l : List Char) :
    joinC c (splitOnC c l) = l := by
  induction l with
  | nil => rfl
  | cons x xs ih =>
    obtain ⟨h, t, hs⟩ : ∃ h t, splitOnC c xs = h :: t := by
      cases hs : splitOnC c xs with
      | nil => exact absurd hs (splitOnC_ne_nil c xs)
      | cons h t => exact ⟨h, t, rfl⟩
    rw [hs] at ih
    simp only [splitOnC, hs]
    by_cases hx : x = c
    · subst hx
      rw [if_pos rfl]
      show ([] : List Char) ++ x :: joinC x (h :: t) = x :: xs
      rw [List.nil_append, ih]
    · rw [if_neg hx]
      cases t with
      | nil =>
        show x :: h = x :: xs
        rw [show joinC c [h] = h from rfl] at ih
        rw [ih]
      | cons t1 ts =>
        show (x :: h) ++ c :: joinC c (t1 :: ts) = x :: xs
        rw [show joinC c (h :: t1 :: ts) = h ++ c :: joinC c (t1 :: ts) from rfl]
          at ih
        rw [List.cons_append, ih]

theorem isPrefixOf_append_self : ∀ (p r : List Char),
    (p.isPrefixOf (p ++ r)) = true := by
  intro p r
  induction p with
  | nil => simp [List.isPrefixOf]
  | cons a as ih => simp [List.isPrefixOf, ih]

theorem isPrefixOf_append_both : ∀ (p q r : List Char),
    ((p ++ q).isPrefixOf (p ++ r)) = q.isPrefixOf r := by
  intro p q r
  induction p with
  | nil => simp
  | cons a as ih => simp [List.isPrefixOf, ih]

theorem isPrefixOf_cons_false {a b : Char} (as bs : List Char)
    (h : (a == b) = false) : ((a :: as).isPrefixOf (b :: bs)) = false := by
  simp [List.isPrefixOf, h]

theorem takeWhile_append_stop {p : Char → Bool} {a : List Char} {x : Char}
    (b : List Char) (ha : ∀ y ∈ a, p y = true) (hx : p x = false) :
    (a ++ x :: b).takeWhile p = a := by
  rw [List.takeWhile_append_of_pos ha, List.takeWhile_cons_of_neg (by simp [hx])]
  simp

theorem dropWhile_append_stop {p : Char → Bool} {a : List Char} {x : Char}
    (b : List Char) (ha : ∀ y ∈ a, p y = true) (hx : p x = false) :
    (a ++ x :: b).dropWhile p = x :: b := by
  rw [List.dropWhile_append_of_pos ha, List.dropWhile_cons_of_neg (by simp [hx])]


/-!  # Claim theorems: concrete evaluations -/

/-- Claim C1.  The claim is refuted by the code: on the failing input
(a fence whose interior line is `# x`) the heading pass, which runs before
the fence pass, has already rewritten the interior line to `<h1>x</h1>`, so
the fence interior is not reproduced byte-for-byte.  This theorem evaluates
the engine at the failing input: the output embeds `<h1>x</h1>` inside the
code element and the interior text `# x` does not occur in the output. -/
theorem c1_fence_interior_not_shielded :
    convert_md_to_html "```\n# x\n```" = "<pre><code><h1>x</h1>\n</code></pre>" ∧
    occursIn "# x".data (convert_md_to_html "```\n# x\n```").data = false := by
  exact ⟨rfl, by decide⟩

/-- Claim C2, counterexample.  For the checklist line `- [ ] a` immediately
followed by the plain bullet `- b`, the output contains no plain `<ul>` open
tag at all (and a single `</ul>`): the bullet item is emitted into the still
open checklist container, so there is no close-then-open pair at the
boundary as the claim requires. -/
theorem c2_boundary_counterexample :
    convert_md_to_html "- [ ] a\n- b" =
      "<ul class=\"checklist\">\n<li><input type=\"checkbox\" id=\"item-a\"><label for=\"item-a\">a</label></li>\n<li>b</li>\n</ul>" ∧
    occursIn "<ul>".data (convert_md_to_html "- [ ] a\n- b").data = false := by
  exact ⟨rfl, by decide⟩

/-- Claim C4, counterexample.  After an unterminated fence the marker stays,
but the following text is not left as literal unconverted content: the line
`- a` after the unmatched fence is converted into a list by the list pass. -/
theorem c4_following_text_converted :
    convert_md_to_html "```\n- a" = "<p>```\n<ul>\n<li>a</li>\n</ul>" ∧
    occursIn "- a".data (convert_md_to_html "```\n- a").data = false := by
  exact ⟨rfl, by decide⟩

/-- Claim C5, counterexample.  On `## a  b` (two spaces) the engine derives
the identifier `a--b` — each space character becomes one hyphen — while the
claim's derivation (whitespace runs collapsed to single hyphens, as in
`spec_slug`) yields `a-b`, so the emitted heading does not carry the
claimed identifier. -/
theorem c5_id_counterexample :
    convert_md_to_html "## a  b" = "<h2 id=\"a--b\">a  b</h2>" ∧
    spec_slug "a  b".data = "a-b".data ∧
    convert_md_to_html "## a  b" ≠
      String.mk ("<h2 id=\"".data ++ spec_slug "a  b".data ++ "\">a  b</h2>".data) := by
  refine ⟨rfl, by decide, by decide⟩

/-- Claim C7, counterexample.  The engine does not trim: for the markup-free
input `" hi "` the output wraps the untrimmed text; and the markup-free input
`"a\n\nb"` produces two paragraph elements, not one. -/
theorem c7_counterexample :
    convert_md_to_html " hi " = "<p> hi </p>" ∧
    convert_md_to_html " hi " ≠ "<p>hi</p>" ∧
    convert_md_to_html "a\n\nb" = "<p>a\n</p>\n<p>\nb</p>" := by
  refine ⟨rfl, by decide, rfl⟩

/-- Claim C9: the engine is deterministic — it is a pure function of its
input, so running it twice on the same Markdown input yields byte-identical
output. -/
theorem c9_deterministic (s : String) :
    convert_md_to_html s = convert_md_to_html s := rfl

/-!  ## Claim C3: the table pass on a well-formed block -/

theorem pyStrip_nil : pyStrip ([] : List Char) = [] := rfl

theorem isEmpty_false_of_ne_nil {l : List Char} (h : l ≠ []) :
    l.isEmpty = false := by
  cases l with
  | nil => exact absurd rfl h
  | cons a b => rfl

/-- Claim C3: for a table block whose header line is `| A | B |`, whose
second line is an arbitrary nonblank newline-free separator, and whose rows
are `| 1 | 2 |` and `| 3 | 4 |`, the table pass parses exactly two header
cells and exactly the two body rows of two cells each; the separator (line 2
of the run) contributes zero output rows and is discarded without its syntax
being inspected — the result does not depend on `sep` at all. -/
theorem c3_table_block (sep : List Char) (hnl : '\n' ∉ sep)
    (hne : pyStrip sep ≠ []) :
    splitCells "| A | B |".data = ["A".data, "B".data] ∧
    tableRowsOf ((tableLines
        ("\n| A | B |\n".data ++ sep ++ "\n| 1 | 2 |\n| 3 | 4 |\n".data)).drop 2) =
      [["1".data, "2".data], ["3".data, "4".data]] ∧
    convert_tableL ("\n| A | B |\n".data ++ sep ++ "\n| 1 | 2 |\n| 3 | 4 |\n".data) =
      "<table>\n<thead>\n<tr>\n<th>A</th>\n<th>B</th>\n</tr>\n</thead>\n<tbody>\n<tr>\n<td>1</td>\n<td>2</td>\n</tr>\n<tr>\n<td>3</td>\n<td>4</td>\n</tr>\n</tbody>\n</table>".data := by
  have hrest : splitOnC '\n' "| 1 | 2 |\n| 3 | 4 |\n".data =
      ["| 1 | 2 |".data, "| 3 | 4 |".data, []] := by decide
  have h1 : tableLines ("\n| A | B |\n".data ++ sep ++ "\n| 1 | 2 |\n| 3 | 4 |\n".data) =
      ["| A | B |".data, pyStrip sep, "| 1 | 2 |".data, "| 3 | 4 |".data] := by
    unfold tableLines
    rw [List.append_assoc]
    show ((splitOnC '\n'
      (([] : List Char) ++ '\n' :: ("| A | B |".data ++ '\n' ::
        (sep ++ '\n' :: "| 1 | 2 |\n| 3 | 4 |\n".data)))).map pyStrip).filter
        (fun l => !l.isEmpty) = _
    rw [splitOnC_append_cons _ (by decide : '\n' ∉ ([] : List Char))]
    rw [splitOnC_append_cons _ (by decide : '\n' ∉ "| A | B |".data)]
    rw [splitOnC_append_cons _ hnl]
    rw [hrest]
    have e0 : pyStrip ([] : List Char) = [] := rfl
    have eA : pyStrip "| A | B |".data = "| A | B |".data := by decide
    have eR1 : pyStrip "| 1 | 2 |".data = "| 1 | 2 |".data := by decide
    have eR2 : pyStrip "| 3 | 4 |".data = "| 3 | 4 |".data := by decide
    have hsne : (pyStrip sep).isEmpty = false := isEmpty_false_of_ne_nil hne
    simp only [List.map_cons, List.map_nil, e0, eA, eR1, eR2, List.filter,
      hsne, List.isEmpty_nil, List.isEmpty_cons, Bool.not_false, Bool.not_true]
  refine ⟨by decide, ?_, ?_⟩
  · rw [h1]
    show tableRowsOf ["| 1 | 2 |".data, "| 3 | 4 |".data] = _
    decide
  · unfold convert_tableL
    rw [h1]
    show tableHtmlOf (splitCells "| A | B |".data)
        (tableRowsOf ["| 1 | 2 |".data, "| 3 | 4 |".data]) = _
    decide

/-- Witness for C3, instantiating the separator with the claim's `---|---`. -/
theorem c3_table_block_witness :
    convert_tableL ("\n| A | B |\n".data ++ "---|---".data ++
        "\n| 1 | 2 |\n| 3 | 4 |\n".data) =
      "<table>\n<thead>\n<tr>\n<th>A</th>\n<th>B</th>\n</tr>\n</thead>\n<tbody>\n<tr>\n<td>1</td>\n<td>2</td>\n</tr>\n<tr>\n<td>3</td>\n<td>4</td>\n</tr>\n</tbody>\n</table>".data :=
  (c3_table_block "---|---".data (by decide) (by decide)).2.2

/-!  ## Claim C2: checklist run followed by a plain bullet -/

theorem listStep_checklistU (st : LKind) (t : List Char) :
    listStep st ("- [ ] ".data ++ t) =
      if st = LKind.closed then
        (LKind.ulOpen,
         ["<ul class=\"checklist\">".data, checklistItemU ("- [ ] ".data ++ t)])
      else (st, [checklistItemU ("- [ ] ".data ++ t)]) := by
  have g1 : "- [ ]".data.isPrefixOf ("- [ ] ".data ++ t) = true := by
    show "- [ ]".data.isPrefixOf ("- [ ]".data ++ (' ' :: t)) = true
    exact isPrefixOf_append_self _ _
  unfold listStep
  rw [g1]
  simp

theorem listScan_checklist_run (ts : List (List Char)) (rest : List (List Char)) :
    listScan LKind.ulOpen
        ((ts.map (fun t => "- [ ] ".data ++ t)) ++ rest) =
      (ts.map (fun t => checklistItemU ("- [ ] ".data ++ t))) ++
        listScan LKind.ulOpen rest := by
  induction ts with
  | nil => simp
  | cons t0 ts ih =>
    rw [List.map_cons, List.cons_append, listScan, listStep_checklistU,
      if_neg (by decide : ¬(LKind.ulOpen = LKind.closed))]
    rw [List.map_cons, List.cons_append]
    exact congrArg _ ih

/-- Claim C2, amended: for a run of checklist lines immediately followed by a
plain bullet line, the list pass emits no container-close and no
container-open at the boundary — the bullet's list item is appended into the
still-open checklist container, which is closed only at end of input.  (The
scan's state records only that some unordered-style container is open, so
the bullet does not trigger a close/open pair.) -/
theorem c2_checklist_then_bullet (t0 : List Char) (ts : List (List Char))
    (b : List Char) (hb : b ≠ [])
    (hb1 : "[ ]".data.isPrefixOf b = false)
    (hb2 : "[x]".data.isPrefixOf b = false) :
    listScan LKind.closed
        ((("- [ ] ".data ++ t0) :: ts.map (fun t => "- [ ] ".data ++ t)) ++
          ["- ".data ++ b]) =
      "<ul class=\"checklist\">".data ::
        (checklistItemU ("- [ ] ".data ++ t0) ::
          ts.map (fun t => checklistItemU ("- [ ] ".data ++ t))) ++
        ["<li>".data ++ b ++ "</li>".data, "</ul>".data] := by
  have gb1 : "- [ ]".data.isPrefixOf ("- ".data ++ b) = false := by
    show ("- ".data ++ "[ ]".data).isPrefixOf ("- ".data ++ b) = false
    rw [isPrefixOf_append_both]
    exact hb1
  have gb2 : "- [x]".data.isPrefixOf ("- ".data ++ b) = false := by
    show ("- ".data ++ "[x]".data).isPrefixOf ("- ".data ++ b) = false
    rw [isPrefixOf_append_both]
    exact hb2
  have gb3 : "- ".data.isPrefixOf ("- ".data ++ b) = true :=
    isPrefixOf_append_self _ _
  have gb4 : ("- ".data ++ b).drop 2 = b := List.drop_left' (by decide)
  have hstep : listStep LKind.ulOpen ("- ".data ++ b) =
      (LKind.ulOpen, ["<li>".data ++ b ++ "</li>".data]) := by
    unfold listStep
    rw [gb1, gb2, gb3, gb4, isEmpty_false_of_ne_nil hb]
    simp
  have htail : listScan LKind.ulOpen ["- ".data ++ b] =
      ["<li>".data ++ b ++ "</li>".data, "</ul>".data] := by
    rw [listScan, hstep]
    rfl
  rw [List.cons_append, listScan, listStep_checklistU, if_pos rfl]
  show "<ul class=\"checklist\">".data :: checklistItemU ("- [ ] ".data ++ t0) ::
      listScan LKind.ulOpen (ts.map (fun t => "- [ ] ".data ++ t) ++ ["- ".data ++ b]) = _
  rw [listScan_checklist_run, htail]
  simp

/-- Witness for the amended C2 at the concrete run `- [ ] a`, `- [ ] c`
followed by `- b`. -/
theorem c2_checklist_then_bullet_witness :
    listScan LKind.closed
        ["- [ ] a".data, "- [ ] c".data, "- b".data] =
      ["<ul class=\"checklist\">".data,
       checklistItemU "- [ ] a".data, checklistItemU "- [ ] c".data,
       "<li>b</li>".data, "</ul>".data] := by
  have h := c2_checklist_then_bullet "a".data ["c".data] "b".data
    (by decide) (by decide) (by decide)
  exact h

/-!  ## Claim C6: container balance of the list scan -/

theorem listStep_eq_trace (st : LKind) (line : List Char) :
    listStep st line =
      ((listStepT st line).1, ((listStepT st line).2).map renderEm) := by
  unfold listStep listStepT
  repeat' split
  all_goals rfl

theorem listScan_eq_trace : ∀ (lines : List (List Char)) (st : LKind),
    listScan st lines = (listScanT st lines).map renderEm := by
  intro lines
  induction lines with
  | nil => intro st; cases st <;> rfl
  | cons ln rest ih =>
    intro st
    rw [listScan, listScanT, List.map_append, listStep_eq_trace st ln]
    dsimp only
    rw [ih ((listStepT st ln).1)]

theorem listScanT_ok : ∀ (lines : List (List Char)) (st : LKind),
    okFrom (emDelta st) (listScanT st lines) := by
  intro lines
  induction lines with
  | nil =>
    intro st
    cases st <;> simp [listScanT, okFrom, emDelta]
  | cons ln rest ih =>
    intro st
    rw [listScanT]
    have d0 : emDelta LKind.closed = 0 := rfl
    have d1 : emDelta LKind.ulOpen = 1 := rfl
    have d2 : emDelta LKind.olOpen = 1 := rfl
    have k0 : okFrom 0 (listScanT LKind.closed rest) := d0 ▸ ih LKind.closed
    have k1 : okFrom 1 (listScanT LKind.ulOpen rest) := d1 ▸ ih LKind.ulOpen
    have k2 : okFrom 1 (listScanT LKind.olOpen rest) := d2 ▸ ih LKind.olOpen
    unfold listStepT
    cases st <;> repeat' split
    all_goals try contradiction
    all_goals
      simp only [List.cons_append, List.nil_append, okFrom, d0, d1, d2,
        eq_self_iff_true, true_and]
    all_goals
      first
        | exact k0
        | exact k1
        | exact k2

/-- Claim C6: throughout the list pass's single forward scan, at most one
container is open at any point; every container-open tag the pass emits is
matched by exactly one container-close tag emitted later (open and close
tags alternate, starting closed), and a container still open at end of
input is closed there.  The first conjunct ties the instrumented trace to
the actual pass output; the second is the balance invariant `okFrom 0`. -/
theorem c6_container_balance (lines : List (List Char)) :
    listScan LKind.closed lines =
      (listScanT LKind.closed lines).map renderEm ∧
    okFrom 0 (listScanT LKind.closed lines) := by
  refine ⟨listScan_eq_trace lines _, ?_⟩
  have h := listScanT_ok lines LKind.closed
  simpa [emDelta] using h

/-!  ## Claim C8: the engine never fails -/

theorem convert_tableLOpt_eq (t : List Char) :
    convert_tableLOpt t = some (convert_tableL t) := by
  unfold convert_tableLOpt convert_tableL
  by_cases h : (tableLines t).length < 2
  · simp [h]
  · cases hl : tableLines t with
    | nil =>
      rw [hl] at h
      simp at h
    | cons l0 ls =>
      simp only [hl]
      split <;> rfl

theorem tryTableOpt_eq (l : List Char) :
    tryTableOpt l = (tryTable l).map (fun pr => (some pr.1, pr.2)) := by
  unfold tryTableOpt tryTable
  split
  · next rest =>
    cases hr : rowsScan rest with
    | mk rows r =>
      by_cases he : rows.isEmpty
      · simp [he]
      · simp [he, convert_tableLOpt_eq]
  · rfl

theorem subScanOpt_eq : ∀ (fuel : Nat) (l : List Char),
    subScanOpt fuel l = some (subScan tryTable fuel l) := by
  intro fuel
  induction fuel with
  | zero => intro l; rfl
  | succ n ih =>
    intro l
    cases l with
    | nil => rfl
    | cons c cs =>
      rw [subScanOpt, subScan, tryTableOpt_eq]
      cases ht : tryTable (c :: cs) with
      | none => simp [ih]
      | some pr =>
        cases pr with
        | mk rep rest => simp [ih]

/-- Claim C8: for every input string the engine terminates and produces an
HTML string.  `convert_md_to_html_checked` models the one fallible operation
of the source (`lines[0]` in `convert_table`, guarded by `len(lines) < 2`)
with an explicit failure value; it never fails, and always returns exactly
the output of `convert_md_to_html`.  Malformed fences, mismatched table
rows, unsafe identifier characters and missing level-1 headings are all
just text to the passes — no input reaches a failure. -/
theorem c8_total (s : String) :
    convert_md_to_html_checked s = some (convert_md_to_html s) := by
  unfold convert_md_to_html_checked convert_md_to_html convertLChecked
    convertL tablePassLOpt tablePassL runSub
  rw [subScanOpt_eq]
  rfl

/-!  ## Claim C5: the level-2 heading identifier derivation -/

theorem suffix_append_cases {l' a b : List Char} (h : l' <:+ a ++ b) :
    l' <:+ b ∨ ∃ a', a' <:+ a ∧ a' ≠ [] ∧ l' = a' ++ b := by
  induction a with
  | nil => exact Or.inl (by simpa using h)
  | cons x xs ih =>
    rw [List.cons_append] at h
    rcases List.suffix_cons_iff.mp h with he | hs
    · exact Or.inr ⟨x :: xs, List.suffix_refl _, by simp, by simpa using he⟩
    · rcases ih hs with h1 | ⟨a', ha1, ha2, ha3⟩
      · exact Or.inl h1
      · exact Or.inr ⟨a', ha1.trans (List.suffix_cons x xs), ha2, ha3⟩

/-- Package the suffix analysis of a string of shape `A ++ (t ++ B)`: a
pattern matcher returns `none` at every nonempty suffix provided it does so
at the suffixes contributed by `A` (given the full tail), inside `t` (by the
head character), and within `B`. -/
theorem try_none_on_sandwich {f : List Char → Option (List Char × List Char)}
    {A t B : List Char}
    (hA : ∀ a', a' <:+ A → a' ≠ [] → f (a' ++ (t ++ B)) = none)
    (hB : ∀ b', b' <:+ B → b' ≠ [] → f b' = none)
    (ht : ∀ c cs, c ∈ t → f (c :: cs) = none) :
    ∀ l', l' <:+ A ++ (t ++ B) → l' ≠ [] → f l' = none := by
  intro l' hs hne
  rcases suffix_append_cases hs with hs1 | ⟨a', ha1, ha2, rfl⟩
  · rcases suffix_append_cases hs1 with hs2 | ⟨t', ht1, ht2, rfl⟩
    · exact hB l' hs2 hne
    · cases t' with
      | nil => exact absurd rfl ht2
      | cons c cs =>
        rw [List.cons_append]
        exact ht c (cs ++ B) (ht1.sublist.subset (List.mem_cons_self c cs))
  · exact hA a' ha1 ha2

theorem isPrefixOf_extend_false : ∀ {p l : List Char} (q : List Char),
    p.isPrefixOf l = false → (p ++ q).isPrefixOf l = false := by
  intro p
  induction p with
  | nil =>
    intro l q h
    cases l <;> simp [List.isPrefixOf] at h
  | cons a as ih =>
    intro l q h
    cases l with
    | nil => rfl
    | cons b bs =>
      cases hab : (a == b) with
      | false => simp [List.isPrefixOf, hab]
      | true =>
        have h' : as.isPrefixOf bs = false := by
          simpa [List.isPrefixOf, hab] using h
        simp [List.isPrefixOf, hab, ih q h']

theorem tryH2_none_of_head {c : Char} {cs : List Char} (h : c ≠ '<') :
    tryH2 (c :: cs) = none := by
  have hb : (('<' : Char) == c) = false :=
    beq_eq_false_iff_ne.mpr (fun he => h he.symm)
  unfold tryH2
  rw [show "<h2 id=\"".data = '<' :: "h2 id=\"".data from rfl,
    isPrefixOf_cons_false _ _ hb]
  simp

theorem runSub_head_match {f : List Char → Option (List Char × List Char)}
    {l rep : List Char} (h : f l = some (rep, [])) (hl : l ≠ []) :
    runSub f l = rep := by
  cases l with
  | nil => exact absurd rfl hl
  | cons c cs =>
    show subScan f (c :: cs).length (c :: cs) = rep
    rw [List.length_cons, subScan_cons_some _ h, subScan_nil]
    simp

theorem bne_true_of_ne {c d : Char} (h : c ≠ d) : (c != d) = true := by
  simp [bne]
  exact h

theorem tryH2_at_head (t : List Char) (hne : t ≠ []) (hq : '"' ∉ t)
    (hlt : '<' ∉ t) :
    tryH2 ("<h2 id=\"".data ++ (t ++ ('"' :: '>' :: (t ++ "</h2>".data)))) =
      some ("<h2 id=\"".data ++ make_id_slug t ++ "\">".data ++ t ++
        "</h2>".data, []) := by
  have hq' : ∀ y ∈ t, (y != '"') = true :=
    fun y hy => bne_true_of_ne (fun he => hq (he ▸ hy))
  have hlt' : ∀ y ∈ t, (y != '<') = true :=
    fun y hy => bne_true_of_ne (fun he => hlt (he ▸ hy))
  have hdrop : ("<h2 id=\"".data ++
      (t ++ ('"' :: '>' :: (t ++ "</h2>".data)))).drop 8 =
      t ++ ('"' :: '>' :: (t ++ "</h2>".data)) := List.drop_left' (by decide)
  have htake : (t ++ ('"' :: '>' :: (t ++ "</h2>".data))).takeWhile
      (fun c => c != '"') = t := takeWhile_append_stop _ hq' (by decide)
  have hdw : (t ++ ('"' :: '>' :: (t ++ "</h2>".data))).dropWhile
      (fun c => c != '"') = '"' :: '>' :: (t ++ "</h2>".data) :=
    dropWhile_append_stop _ hq' (by decide)
  have htake2 : (t ++ "</h2>".data).takeWhile (fun c => c != '<') = t := by
    show (t ++ ('<' :: "/h2>".data)).takeWhile (fun c => c != '<') = t
    exact takeWhile_append_stop _ hlt' (by decide)
  have hdw2 : (t ++ "</h2>".data).dropWhile (fun c => c != '<') =
      '<' :: "/h2>".data := by
    show (t ++ ('<' :: "/h2>".data)).dropWhile (fun c => c != '<') = _
    exact dropWhile_append_stop _ hlt' (by decide)
  have hpre : ("<h2 id=\"".data.isPrefixOf ("<h2 id=\"".data ++
      (t ++ ('"' :: '>' :: (t ++ "</h2>".data))))) = true :=
    isPrefixOf_append_self _ _
  unfold tryH2
  rw [hpre]
  simp only [if_true, hdrop, htake, hdw, htake2, hdw2,
    isEmpty_false_of_ne_nil hne]
  simp

theorem suffix_none_of_tails {f : List Char → Option (List Char × List Char)}
    {B : List Char} (h : ∀ b' ∈ B.tails, b' ≠ [] → f b' = none) :
    ∀ b', b' <:+ B → b' ≠ [] → f b' = none :=
  fun b' hs hne => h b' ((List.mem_tails _ _).mpr hs) hne

theorem headersPassL_single {l : List Char} (hnl : '\n' ∉ l) :
    headersPassL l = headerLine l := by
  unfold headersPassL
  rw [splitOnC_not_mem hnl]
  rfl

theorem headerLine_h2 (t : List Char) (hne : t ≠ []) :
    headerLine ("## ".data ++ t) =
      "<h2 id=\"".data ++ (t ++ ('"' :: '>' :: (t ++ "</h2>".data))) := by
  have g1 : ("# ".data.isPrefixOf ("## ".data ++ t)) = false := by
    show (['#', ' '].isPrefixOf ('#' :: '#' :: ' ' :: t)) = false
    simp [List.isPrefixOf, (by decide : ((' ' : Char) == '#') = false)]
  have g2 : ("## ".data.isPrefixOf ("## ".data ++ t)) = true :=
    isPrefixOf_append_self _ _
  have g3 : ("## ".data ++ t).drop 3 = t := List.drop_left' (by decide)
  unfold headerLine
  rw [g1, g2, g3]
  simp [isEmpty_false_of_ne_nil hne, List.append_assoc]

theorem headerLine_h1 (t : List Char) (hne : t ≠ []) :
    headerLine ("# ".data ++ t) = "<h1>".data ++ (t ++ "</h1>".data) := by
  have g1 : ("# ".data.isPrefixOf ("# ".data ++ t)) = true :=
    isPrefixOf_append_self _ _
  have g2 : ("# ".data ++ t).drop 2 = t := List.drop_left' (by decide)
  unfold headerLine
  rw [g1, g2]
  simp [isEmpty_false_of_ne_nil hne, List.append_assoc]

theorem headerLine_h3 (t : List Char) (hne : t ≠ []) :
    headerLine ("### ".data ++ t) = "<h3>".data ++ (t ++ "</h3>".data) := by
  have g1 : ("# ".data.isPrefixOf ("### ".data ++ t)) = false := by
    show (['#', ' '].isPrefixOf ('#' :: '#' :: '#' :: ' ' :: t)) = false
    simp [List.isPrefixOf, (by decide : ((' ' : Char) == '#') = false)]
  have g2 : ("## ".data.isPrefixOf ("### ".data ++ t)) = false := by
    show (['#', '#', ' '].isPrefixOf ('#' :: '#' :: '#' :: ' ' :: t)) = false
    simp [List.isPrefixOf, (by decide : ((' ' : Char) == '#') = false)]
  have g3 : ("### ".data.isPrefixOf ("### ".data ++ t)) = true :=
    isPrefixOf_append_self _ _
  have g4 : ("### ".data ++ t).drop 4 = t := List.drop_left' (by decide)
  unfold headerLine
  rw [g1, g2, g3, g4]
  simp [isEmpty_false_of_ne_nil hne, List.append_assoc]

theorem headerLine_h4 (t : List Char) (hne : t ≠ []) :
    headerLine ("#### ".data ++ t) = "<h4>".data ++ (t ++ "</h4>".data) := by
  have g1 : ("# ".data.isPrefixOf ("#### ".data ++ t)) = false := by
    show (['#', ' '].isPrefixOf ('#' :: '#' :: '#' :: '#' :: ' ' :: t)) = false
    simp [List.isPrefixOf, (by decide : ((' ' : Char) == '#') = false)]
  have g2 : ("## ".data.isPrefixOf ("#### ".data ++ t)) = false := by
    show (['#', '#', ' '].isPrefixOf ('#' :: '#' :: '#' :: '#' :: ' ' :: t)) = false
    simp [List.isPrefixOf, (by decide : ((' ' : Char) == '#') = false)]
  have g3 : ("### ".data.isPrefixOf ("#### ".data ++ t)) = false := by
    show (['#', '#', '#', ' '].isPrefixOf ('#' :: '#' :: '#' :: '#' :: ' ' :: t)) = false
    simp [List.isPrefixOf, (by decide : ((' ' : Char) == '#') = false)]
  have g4 : ("#### ".data.isPrefixOf ("#### ".data ++ t)) = true :=
    isPrefixOf_append_self _ _
  have g5 : ("#### ".data ++ t).drop 5 = t := List.drop_left' (by decide)
  unfold headerLine
  rw [g1, g2, g3, g4, g5]
  simp [isEmpty_false_of_ne_nil hne, List.append_assoc]

theorem runSub_tryH2_id_wrap (o c t : List Char) (hlt : '<' ∉ t)
    (ho : ∀ a', a' <:+ o → a' ≠ [] → tryH2 (a' ++ (t ++ c)) = none)
    (hc : ∀ b' ∈ c.tails, b' ≠ [] → tryH2 b' = none) :
    runSub tryH2 (o ++ (t ++ c)) = o ++ (t ++ c) := by
  apply runSub_id_of_suffix_none
  apply try_none_on_sandwich ho (suffix_none_of_tails hc)
  intro c' cs hcm
  exact tryH2_none_of_head (fun he => hlt (he ▸ hcm))

theorem runSub_tryH2_id_h1 (t : List Char) (hlt : '<' ∉ t) :
    runSub tryH2 ("<h1>".data ++ (t ++ "</h1>".data)) =
      "<h1>".data ++ (t ++ "</h1>".data) := by
  apply runSub_tryH2_id_wrap _ _ _ hlt
  · intro a' ha hne
    have hmem : a' ∈ "<h1>".data.tails := (List.mem_tails _ _).mpr ha
    fin_cases hmem
    · show tryH2 ('<' :: 'h' :: '1' :: '>' :: (t ++ "</h1>".data)) = none
      unfold tryH2
      rw [show ("<h2 id=\"".data.isPrefixOf
        ('<' :: 'h' :: '1' :: '>' :: (t ++ "</h1>".data))) = false from by
          simp [List.isPrefixOf, (by decide : (('2' : Char) == '1') = false)]]
      simp
    · show tryH2 ('h' :: ("1>".data ++ (t ++ "</h1>".data))) = none
      exact tryH2_none_of_head (by decide)
    · show tryH2 ('1' :: (">".data ++ (t ++ "</h1>".data))) = none
      exact tryH2_none_of_head (by decide)
    · show tryH2 ('>' :: (t ++ "</h1>".data)) = none
      exact tryH2_none_of_head (by decide)
    · exact absurd rfl hne
  · decide

theorem runSub_tryH2_id_h3 (t : List Char) (hlt : '<' ∉ t) :
    runSub tryH2 ("<h3>".data ++ (t ++ "</h3>".data)) =
      "<h3>".data ++ (t ++ "</h3>".data) := by
  apply runSub_tryH2_id_wrap _ _ _ hlt
  · intro a' ha hne
    have hmem : a' ∈ "<h3>".data.tails := (List.mem_tails _ _).mpr ha
    fin_cases hmem
    · show tryH2 ('<' :: 'h' :: '3' :: '>' :: (t ++ "</h3>".data)) = none
      unfold tryH2
      rw [show ("<h2 id=\"".data.isPrefixOf
        ('<' :: 'h' :: '3' :: '>' :: (t ++ "</h3>".data))) = false from by
          simp [List.isPrefixOf, (by decide : (('2' : Char) == '3') = false)]]
      simp
    · show tryH2 ('h' :: ("3>".data ++ (t ++ "</h3>".data))) = none
      exact tryH2_none_of_head (by decide)
    · show tryH2 ('3' :: (">".data ++ (t ++ "</h3>".data))) = none
      exact tryH2_none_of_head (by decide)
    · show tryH2 ('>' :: (t ++ "</h3>".data)) = none
      exact tryH2_none_of_head (by decide)
    · exact absurd rfl hne
  · decide

theorem runSub_tryH2_id_h4 (t : List Char) (hlt : '<' ∉ t) :
    runSub tryH2 ("<h4>".data ++ (t ++ "</h4>".data)) =
      "<h4>".data ++ (t ++ "</h4>".data) := by
  apply runSub_tryH2_id_wrap _ _ _ hlt
  · intro a' ha hne
    have hmem : a' ∈ "<h4>".data.tails := (List.mem_tails _ _).mpr ha
    fin_cases hmem
    · show tryH2 ('<' :: 'h' :: '4' :: '>' :: (t ++ "</h4>".data)) = none
      unfold tryH2
      rw [show ("<h2 id=\"".data.isPrefixOf
        ('<' :: 'h' :: '4' :: '>' :: (t ++ "</h4>".data))) = false from by
          simp [List.isPrefixOf, (by decide : (('2' : Char) == '4') = false)]]
      simp
    · show tryH2 ('h' :: ("4>".data ++ (t ++ "</h4>".data))) = none
      exact tryH2_none_of_head (by decide)
    · show tryH2 ('4' :: (">".data ++ (t ++ "</h4>".data))) = none
      exact tryH2_none_of_head (by decide)
    · show tryH2 ('>' :: (t ++ "</h4>".data)) = none
      exact tryH2_none_of_head (by decide)
    · exact absurd rfl hne
  · decide

/-- Claim C5, amended: for a level-2 heading line `## t` (with `t` free of
newline, double-quote and `<`), the heading and `make_id` passes emit a
heading element whose identifier is `make_id_slug t`: the text lowercased,
characters outside word characters, whitespace and hyphen stripped, and then
each space character replaced by one hyphen — a run of k spaces becomes k
hyphens, and other whitespace (such as tab) is kept, not collapsed.
Level-1, level-3 and level-4 headings get no identifier attribute. -/
theorem c5_h2_id_each_space (t : List Char) (hne : t ≠ []) (hnl : '\n' ∉ t)
    (hq : '"' ∉ t) (hlt : '<' ∉ t) :
    runSub tryH2 (headersPassL ("## ".data ++ t)) =
      "<h2 id=\"".data ++ make_id_slug t ++ "\">".data ++ t ++ "</h2>".data ∧
    runSub tryH2 (headersPassL ("# ".data ++ t)) =
      "<h1>".data ++ (t ++ "</h1>".data) ∧
    runSub tryH2 (headersPassL ("### ".data ++ t)) =
      "<h3>".data ++ (t ++ "</h3>".data) ∧
    runSub tryH2 (headersPassL ("#### ".data ++ t)) =
      "<h4>".data ++ (t ++ "</h4>".data) := by
  have hm : ∀ p : List Char, '\n' ∉ p → '\n' ∉ p ++ t := by
    intro p hp hmem
    rcases List.mem_append.mp hmem with h | h
    · exact hp h
    · exact hnl h
  refine ⟨?_, ?_, ?_, ?_⟩
  · rw [headersPassL_single (hm _ (by decide)), headerLine_h2 t hne]
    apply runSub_head_match (tryH2_at_head t hne hq hlt)
    show ('<' : Char) ::
      ("h2 id=\"".data ++ (t ++ ('"' :: '>' :: (t ++ "</h2>".data)))) ≠ []
    exact List.cons_ne_nil _ _
  · rw [headersPassL_single (hm _ (by decide)), headerLine_h1 t hne]
    exact runSub_tryH2_id_h1 t hlt
  · rw [headersPassL_single (hm _ (by decide)), headerLine_h3 t hne]
    exact runSub_tryH2_id_h3 t hlt
  · rw [headersPassL_single (hm _ (by decide)), headerLine_h4 t hne]
    exact runSub_tryH2_id_h4 t hlt

/-- Witness for the amended C5 at the heading text `a  b`. -/
theorem c5_h2_id_each_space_witness :
    runSub tryH2 (headersPassL ("## ".data ++ "a  b".data)) =
      "<h2 id=\"".data ++ make_id_slug "a  b".data ++ "\">".data ++
        "a  b".data ++ "</h2>".data :=
  (c5_h2_id_each_space "a  b".data (by decide) (by decide) (by decide)
    (by decide)).1

/-!  ## Pipeline no-op machinery -/

theorem tryFence_none_of_head {c : Char} {cs : List Char} (h : c ≠ '`') :
    tryFence (c :: cs) = none := by
  have hb : (('`' : Char) == c) = false :=
    beq_eq_false_iff_ne.mpr (fun he => h he.symm)
  unfold tryFence
  rw [show "```".data = '`' :: "``".data from rfl, isPrefixOf_cons_false _ _ hb]
  simp

theorem tryInlineCode_none_of_head {c : Char} {cs : List Char} (h : c ≠ '`') :
    tryInlineCode (c :: cs) = none := by
  unfold tryInlineCode
  split
  · next heq => injection heq with h1 _; exact absurd h1 h
  · rfl

theorem tryBold_none_of_head {c : Char} {cs : List Char} (h : c ≠ '*') :
    tryBold (c :: cs) = none := by
  unfold tryBold
  split
  · next heq => injection heq with h1 _; exact absurd h1 h
  · rfl

theorem tryItalic_none_of_head {c : Char} {cs : List Char} (h : c ≠ '*') :
    tryItalic (c :: cs) = none := by
  unfold tryItalic
  split
  · next heq => injection heq with h1 _; exact absurd h1 h
  · rfl

theorem tryLink_none_of_head {c : Char} {cs : List Char} (h : c ≠ '[') :
    tryLink (c :: cs) = none := by
  unfold tryLink
  split
  · next heq => injection heq with h1 _; exact absurd h1 h
  · rfl

theorem tryPWsPClose_none_of_head {c : Char} {cs : List Char} (h : c ≠ '<') :
    tryPWsPClose (c :: cs) = none := by
  have hb : (('<' : Char) == c) = false :=
    beq_eq_false_iff_ne.mpr (fun he => h he.symm)
  unfold tryPWsPClose
  rw [show "<p>".data = '<' :: "p>".data from rfl, isPrefixOf_cons_false _ _ hb]
  simp

theorem tryPOpenH_none_of_head {c : Char} {cs : List Char} (h : c ≠ '<') :
    tryPOpenH (c :: cs) = none := by
  have hb : (('<' : Char) == c) = false :=
    beq_eq_false_iff_ne.mpr (fun he => h he.symm)
  unfold tryPOpenH
  rw [show "<p>".data = '<' :: "p>".data from rfl, isPrefixOf_cons_false _ _ hb]
  simp

theorem tryHCloseP_none_of_head {c : Char} {cs : List Char} (h : c ≠ '<') :
    tryHCloseP (c :: cs) = none := by
  unfold tryHCloseP
  split
  · next heq => injection heq with h1 _; exact absurd h1 h
  · rfl

theorem tryPOpenBlock_none_of_head (tag : List Char) {c : Char}
    {cs : List Char} (h : c ≠ '<') : tryPOpenBlock tag (c :: cs) = none := by
  have hb : (('<' : Char) == c) = false :=
    beq_eq_false_iff_ne.mpr (fun he => h he.symm)
  unfold tryPOpenBlock
  rw [show "<p>".data = '<' :: "p>".data from rfl, isPrefixOf_cons_false _ _ hb]
  simp

theorem tryBlockCloseP_none_of_head {tr : List Char} {c : Char}
    {cs : List Char} (h : c ≠ '<') :
    tryBlockCloseP ('<' :: tr) (c :: cs) = none := by
  have hb : (('<' : Char) == c) = false :=
    beq_eq_false_iff_ne.mpr (fun he => h he.symm)
  unfold tryBlockCloseP
  rw [isPrefixOf_cons_false _ _ hb]
  simp

theorem tryBadgeOk_none_of_head {c : Char} {cs : List Char} (h : c ≠ '✅') :
    tryBadgeOk (c :: cs) = none := by
  unfold tryBadgeOk
  split
  · next heq => injection heq with h1 _; exact absurd h1 h
  · rfl

theorem tryBadgeX_none_of_head {c : Char} {cs : List Char} (h : c ≠ '❌') :
    tryBadgeX (c :: cs) = none := by
  unfold tryBadgeX
  split
  · next heq => injection heq with h1 _; exact absurd h1 h
  · rfl

theorem tryBadgeWarn_none_of_head {c : Char} {cs : List Char} (h : c ≠ '⚠') :
    tryBadgeWarn (c :: cs) = none := by
  unfold tryBadgeWarn
  split
  · next heq => injection heq with h1 _; exact absurd h1 h
  · rfl

theorem tryBadgeProg_none_of_head {c : Char} {cs : List Char} (h : c ≠ '🔄') :
    tryBadgeProg (c :: cs) = none := by
  unfold tryBadgeProg
  split
  · next heq => injection heq with h1 _; exact absurd h1 h
  · rfl

theorem rowLine_nil : rowLine [] = none := rfl

theorem rowLine_none_of_head {c : Char} {cs : List Char} (h : c ≠ '|') :
    rowLine (c :: cs) = none := by
  unfold rowLine
  split
  · next heq => injection heq with h1 _; exact absurd h1 h
  · rfl

theorem rowsScanF_of_none {l : List Char} (h : rowLine l = none) :
    ∀ f, rowsScanF f l = ([], l) := by
  intro f
  cases f with
  | zero => rfl
  | succ n =>
    unfold rowsScanF
    rw [h]

theorem tryTable_none_no_pipe {c : Char} {cs : List Char} (_hc : c ≠ '|')
    (hcs : ∀ x ∈ cs, x ≠ '|') : tryTable (c :: cs) = none := by
  unfold tryTable
  split
  · next rest heq =>
    injection heq with h1 h2
    have hrow : rowLine rest = none := by
      cases hra : rest with
      | nil => rfl
      | cons a as =>
        apply rowLine_none_of_head
        apply hcs
        rw [h2, hra]
        exact List.mem_cons_self a as
    have : rowsScan rest = ([], rest) := rowsScanF_of_none hrow _
    rw [this]
    simp
  · rfl

theorem runSub_id_of_not_mem {f : List Char → Option (List Char × List Char)}
    {k : Char} (hf : ∀ c cs, c ≠ k → f (c :: cs) = none) {l : List Char}
    (hl : k ∉ l) : runSub f l = l := by
  apply runSub_id_of_charset (fun c => !(c == k))
  · intro c cs hc _
    apply hf
    intro he
    rw [he] at hc
    simp at hc
  · intro x hx
    have hx' : x ≠ k := fun he => hl (he ▸ hx)
    simp [hx']

theorem tablePassL_id_of_not_mem {l : List Char} (hl : '|' ∉ l) :
    tablePassL l = l := by
  apply runSub_id_of_charset (fun c => !(c == '|'))
  · intro c cs hc hcs
    apply tryTable_none_no_pipe
    · intro he
      rw [he] at hc
      simp at hc
    · intro x hx
      have := hcs x hx
      intro he
      rw [he] at this
      simp at this
  · intro x hx
    have hx' : x ≠ '|' := fun he => hl (he ▸ hx)
    simp [hx']

theorem subScan_skip {f : List Char → Option (List Char × List Char)} :
    ∀ (a : List Char) {b : List Char}
    (_ : ∀ a', a' <:+ a → a' ≠ [] → f (a' ++ b) = none) (fuel : Nat),
    subScan f (a.length + fuel) (a ++ b) = a ++ subScan f fuel b := by
  intro a
  induction a with
  | nil => intro b ha fuel; simp
  | cons x xs ih =>
    intro b ha fuel
    have h0 : f ((x :: xs) ++ b) = none :=
      ha (x :: xs) (List.suffix_refl _) (by simp)
    rw [List.cons_append] at h0
    have : (x :: xs).length + fuel = (xs.length + fuel) + 1 := by
      simp [Nat.succ_add]
    rw [List.cons_append, this, subScan_cons_none _ h0]
    rw [ih (fun a' hs hne => ha a' (hs.trans (List.suffix_cons x xs)) hne) fuel]
    simp

theorem runSub_split {f : List Char → Option (List Char × List Char)}
    {a b : List Char}
    (ha : ∀ a', a' <:+ a → a' ≠ [] → f (a' ++ b) = none) :
    runSub f (a ++ b) = a ++ runSub f b := by
  show subScan f (a ++ b).length (a ++ b) = _
  rw [List.length_append, subScan_skip a ha b.length]
  rfl

theorem runSub_head_match_rest {f : List Char → Option (List Char × List Char)}
    {l rep rest : List Char} (h : f l = some (rep, rest)) (hl : l ≠ [])
    (hrest : ∀ l', l' <:+ rest → l' ≠ [] → f l' = none) :
    runSub f l = rep ++ rest := by
  cases l with
  | nil => exact absurd rfl hl
  | cons c cs =>
    show subScan f (c :: cs).length (c :: cs) = rep ++ rest
    rw [List.length_cons, subScan_cons_some _ h,
      subScan_id_of_suffix_none hrest]

theorem paraScanF_nil : ∀ f, paraScanF f [] = [] := by
  intro f
  cases f <;> rfl

theorem paraScanF_cons {c : Char} {cs : List Char} (f : Nat)
    (h : ∀ cs', ¬(c :: cs = '\n' :: '\n' :: cs')) :
    paraScanF (f + 1) (c :: cs) = c :: paraScanF f cs := by
  unfold paraScanF
  split
  · omega
  · simp_all
  · rename_i rest heqf heql
    exact absurd heql (h rest)
  · rename_i f2 c2 cs2 hno heqf heql
    injection heql with h1 h2
    subst h1
    subst h2
    have hf : f2 = f := by omega
    subst hf
    rw [← paraScanF.eq_def]

/-!  ## The cleanup pass leaves a plain wrapped paragraph untouched -/

theorem dropWhile_ws_append {m B : List Char} {c0 : Char} {r : List Char}
    (hm : m.dropWhile isWsPy = c0 :: r) :
    (m ++ B).dropWhile isWsPy = c0 :: (r ++ B) := by
  have hsplit : m.takeWhile isWsPy ++ (c0 :: r) = m := by
    rw [← hm, List.takeWhile_append_dropWhile]
  have hws : ∀ y ∈ m.takeWhile isWsPy, isWsPy y = true :=
    fun y hy => List.mem_takeWhile_imp hy
  have hc0 : isWsPy c0 = false := by
    have h2 := List.head?_dropWhile_not isWsPy m
    rw [hm] at h2
    simpa using h2
  calc (m ++ B).dropWhile isWsPy
      = ((m.takeWhile isWsPy ++ (c0 :: r)) ++ B).dropWhile isWsPy := by
        rw [hsplit]
    _ = (m.takeWhile isWsPy ++ (c0 :: (r ++ B))).dropWhile isWsPy := by
        rw [List.append_assoc]
        rfl
    _ = c0 :: (r ++ B) := dropWhile_append_stop _ hws hc0

theorem tryPWsPClose_whole {m B : List Char} {c0 : Char} {r : List Char}
    (hm : m.dropWhile isWsPy = c0 :: r) (hc0 : c0 ≠ '<') :
    tryPWsPClose ("<p>".data ++ (m ++ B)) = none := by
  have hpre : ("<p>".data.isPrefixOf ("<p>".data ++ (m ++ B))) = true :=
    isPrefixOf_append_self _ _
  have hdrop : ("<p>".data ++ (m ++ B)).drop 3 = m ++ B :=
    List.drop_left' (by decide)
  have hdw := dropWhile_ws_append (B := B) hm
  have hnp : ("</p>".data.isPrefixOf (c0 :: (r ++ B))) = false :=
    isPrefixOf_cons_false _ _
      (beq_eq_false_iff_ne.mpr (fun he => hc0 he.symm))
  unfold tryPWsPClose
  rw [hpre]
  simp only [if_true, hdrop, hdw, hnp]
  simp

theorem tryPOpenH_whole {m B : List Char} {c0 : Char} {r : List Char}
    (hm : m.dropWhile isWsPy = c0 :: r) (hc0 : c0 ≠ '<') :
    tryPOpenH ("<p>".data ++ (m ++ B)) = none := by
  have hpre : ("<p>".data.isPrefixOf ("<p>".data ++ (m ++ B))) = true :=
    isPrefixOf_append_self _ _
  have hdrop : ("<p>".data ++ (m ++ B)).drop 3 = m ++ B :=
    List.drop_left' (by decide)
  have hdw := dropWhile_ws_append (B := B) hm
  unfold tryPOpenH
  rw [hpre]
  simp only [if_true, hdrop, hdw]
  split
  · next heq => injection heq with h1 _; exact absurd h1 hc0
  · rfl

theorem tryPOpenBlock_whole {tr m B : List Char} {c0 : Char} {r : List Char}
    (hm : m.dropWhile isWsPy = c0 :: r) (hc0 : c0 ≠ '<') :
    tryPOpenBlock ('<' :: tr) ("<p>".data ++ (m ++ B)) = none := by
  have hpre : ("<p>".data.isPrefixOf ("<p>".data ++ (m ++ B))) = true :=
    isPrefixOf_append_self _ _
  have hdrop : ("<p>".data ++ (m ++ B)).drop 3 = m ++ B :=
    List.drop_left' (by decide)
  have hdw := dropWhile_ws_append (B := B) hm
  have hnp : (('<' :: tr).isPrefixOf (c0 :: (r ++ B))) = false :=
    isPrefixOf_cons_false _ _
      (beq_eq_false_iff_ne.mpr (fun he => hc0 he.symm))
  unfold tryPOpenBlock
  rw [hpre]
  simp only [if_true, hdrop, hdw, hnp]
  simp

theorem tryHCloseP_whole {X : List Char} :
    tryHCloseP ('<' :: 'p' :: '>' :: X) = none := by
  unfold tryHCloseP
  split
  · next heq =>
    injection heq with _ h2
    injection h2 with h3 _
    exact absurd h3 (by decide)
  · rfl

theorem tryBlockCloseP_whole {tr X : List Char} :
    tryBlockCloseP ('<' :: '/' :: tr) ('<' :: 'p' :: '>' :: X) = none := by
  unfold tryBlockCloseP
  rw [show ((('<' :: '/' :: tr).isPrefixOf ('<' :: 'p' :: '>' :: X))) = false
    from by simp [List.isPrefixOf, (by decide : (('/' : Char) == 'p') = false)]]
  simp

theorem cleanupL_id {m : List Char} (hlt : '<' ∉ m)
    (hws : m.dropWhile isWsPy ≠ []) :
    cleanupL ("<p>".data ++ (m ++ "</p>".data)) =
      "<p>".data ++ (m ++ "</p>".data) := by
  obtain ⟨c0, r, hm⟩ : ∃ c0 r, m.dropWhile isWsPy = c0 :: r := by
    cases h : m.dropWhile isWsPy with
    | nil => exact absurd h hws
    | cons a b => exact ⟨a, b, rfl⟩
  have hc0m : c0 ∈ m := by
    have h1 : c0 ∈ m.dropWhile isWsPy := by
      rw [hm]
      exact List.mem_cons_self _ _
    exact (List.dropWhile_sublist isWsPy).subset h1
  have hc0 : c0 ≠ '<' := fun he => hlt (he ▸ hc0m)
  have hmem : ∀ c, c ∈ m → c ≠ '<' := fun c hc he => hlt (he ▸ hc)
  have tryPWsPClose_id : runSub (tryPWsPClose)
      ("<p>".data ++ (m ++ "</p>".data)) =
      "<p>".data ++ (m ++ "</p>".data) := by
    apply runSub_id_of_suffix_none
    apply try_none_on_sandwich ?hA (suffix_none_of_tails (by decide)) ?ht
    case ht =>
      intro c cs hc
      exact tryPWsPClose_none_of_head (hmem c hc)
    case hA =>
      intro a' ha hne
      have hmm : a' ∈ "<p>".data.tails := (List.mem_tails _ _).mpr ha
      fin_cases hmm
      · exact tryPWsPClose_whole hm hc0
      · show (tryPWsPClose) ('p' :: (">".data ++ (m ++ "</p>".data))) = none
        exact tryPWsPClose_none_of_head (by decide)
      · show (tryPWsPClose) ('>' :: (m ++ "</p>".data)) = none
        exact tryPWsPClose_none_of_head (by decide)
      · exact absurd rfl hne
  have tryPOpenH_id : runSub (tryPOpenH)
      ("<p>".data ++ (m ++ "</p>".data)) =
      "<p>".data ++ (m ++ "</p>".data) := by
    apply runSub_id_of_suffix_none
    apply try_none_on_sandwich ?hA (suffix_none_of_tails (by decide)) ?ht
    case ht =>
      intro c cs hc
      exact tryPOpenH_none_of_head (hmem c hc)
    case hA =>
      intro a' ha hne
      have hmm : a' ∈ "<p>".data.tails := (List.mem_tails _ _).mpr ha
      fin_cases hmm
      · exact tryPOpenH_whole hm hc0
      · show (tryPOpenH) ('p' :: (">".data ++ (m ++ "</p>".data))) = none
        exact tryPOpenH_none_of_head (by decide)
      · show (tryPOpenH) ('>' :: (m ++ "</p>".data)) = none
        exact tryPOpenH_none_of_head (by decide)
      · exact absurd rfl hne
  have tryHCloseP_id : runSub (tryHCloseP)
      ("<p>".data ++ (m ++ "</p>".data)) =
      "<p>".data ++ (m ++ "</p>".data) := by
    apply runSub_id_of_suffix_none
    apply try_none_on_sandwich ?hA (suffix_none_of_tails (by decide)) ?ht
    case ht =>
      intro c cs hc
      exact tryHCloseP_none_of_head (hmem c hc)
    case hA =>
      intro a' ha hne
      have hmm : a' ∈ "<p>".data.tails := (List.mem_tails _ _).mpr ha
      fin_cases hmm
      · exact tryHCloseP_whole
      · show (tryHCloseP) ('p' :: (">".data ++ (m ++ "</p>".data))) = none
        exact tryHCloseP_none_of_head (by decide)
      · show (tryHCloseP) ('>' :: (m ++ "</p>".data)) = none
        exact tryHCloseP_none_of_head (by decide)
      · exact absurd rfl hne
  have tryPOpenPre_id : runSub (tryPOpenBlock "<pre".data)
      ("<p>".data ++ (m ++ "</p>".data)) =
      "<p>".data ++ (m ++ "</p>".data) := by
    apply runSub_id_of_suffix_none
    apply try_none_on_sandwich ?hA (suffix_none_of_tails (by decide)) ?ht
    case ht =>
      intro c cs hc
      exact tryPOpenBlock_none_of_head _ (hmem c hc)
    case hA =>
      intro a' ha hne
      have hmm : a' ∈ "<p>".data.tails := (List.mem_tails _ _).mpr ha
      fin_cases hmm
      · exact tryPOpenBlock_whole hm hc0
      · show (tryPOpenBlock "<pre".data) ('p' :: (">".data ++ (m ++ "</p>".data))) = none
        exact tryPOpenBlock_none_of_head _ (by decide)
      · show (tryPOpenBlock "<pre".data) ('>' :: (m ++ "</p>".data)) = none
        exact tryPOpenBlock_none_of_head _ (by decide)
      · exact absurd rfl hne
  have tryPreCloseP_id : runSub (tryBlockCloseP "</pre>".data)
      ("<p>".data ++ (m ++ "</p>".data)) =
      "<p>".data ++ (m ++ "</p>".data) := by
    apply runSub_id_of_suffix_none
    apply try_none_on_sandwich ?hA (suffix_none_of_tails (by decide)) ?ht
    case ht =>
      intro c cs hc
      exact tryBlockCloseP_none_of_head (hmem c hc)
    case hA =>
      intro a' ha hne
      have hmm : a' ∈ "<p>".data.tails := (List.mem_tails _ _).mpr ha
      fin_cases hmm
      · exact tryBlockCloseP_whole
      · show (tryBlockCloseP "</pre>".data) ('p' :: (">".data ++ (m ++ "</p>".data))) = none
        exact tryBlockCloseP_none_of_head (by decide)
      · show (tryBlockCloseP "</pre>".data) ('>' :: (m ++ "</p>".data)) = none
        exact tryBlockCloseP_none_of_head (by decide)
      · exact absurd rfl hne
  have tryPOpenUl_id : runSub (tryPOpenBlock "<ul".data)
      ("<p>".data ++ (m ++ "</p>".data)) =
      "<p>".data ++ (m ++ "</p>".data) := by
    apply runSub_id_of_suffix_none
    apply try_none_on_sandwich ?hA (suffix_none_of_tails (by decide)) ?ht
    case ht =>
      intro c cs hc
      exact tryPOpenBlock_none_of_head _ (hmem c hc)
    case hA =>
      intro a' ha hne
      have hmm : a' ∈ "<p>".data.tails := (List.mem_tails _ _).mpr ha
      fin_cases hmm
      · exact tryPOpenBlock_whole hm hc0
      · show (tryPOpenBlock "<ul".data) ('p' :: (">".data ++ (m ++ "</p>".data))) = none
        exact tryPOpenBlock_none_of_head _ (by decide)
      · show (tryPOpenBlock "<ul".data) ('>' :: (m ++ "</p>".data)) = none
        exact tryPOpenBlock_none_of_head _ (by decide)
      · exact absurd rfl hne
  have tryUlCloseP_id : runSub (tryBlockCloseP "</ul>".data)
      ("<p>".data ++ (m ++ "</p>".data)) =
      "<p>".data ++ (m ++ "</p>".data) := by
    apply runSub_id_of_suffix_none
    apply try_none_on_sandwich ?hA (suffix_none_of_tails (by decide)) ?ht
    case ht =>
      intro c cs hc
      exact tryBlockCloseP_none_of_head (hmem c hc)
    case hA =>
      intro a' ha hne
      have hmm : a' ∈ "<p>".data.tails := (List.mem_tails _ _).mpr ha
      fin_cases hmm
      · exact tryBlockCloseP_whole
      · show (tryBlockCloseP "</ul>".data) ('p' :: (">".data ++ (m ++ "</p>".data))) = none
        exact tryBlockCloseP_none_of_head (by decide)
      · show (tryBlockCloseP "</ul>".data) ('>' :: (m ++ "</p>".data)) = none
        exact tryBlockCloseP_none_of_head (by decide)
      · exact absurd rfl hne
  have tryPOpenOl_id : runSub (tryPOpenBlock "<ol".data)
      ("<p>".data ++ (m ++ "</p>".data)) =
      "<p>".data ++ (m ++ "</p>".data) := by
    apply runSub_id_of_suffix_none
    apply try_none_on_sandwich ?hA (suffix_none_of_tails (by decide)) ?ht
    case ht =>
      intro c cs hc
      exact tryPOpenBlock_none_of_head _ (hmem c hc)
    case hA =>
      intro a' ha hne
      have hmm : a' ∈ "<p>".data.tails := (List.mem_tails _ _).mpr ha
      fin_cases hmm
      · exact tryPOpenBlock_whole hm hc0
      · show (tryPOpenBlock "<ol".data) ('p' :: (">".data ++ (m ++ "</p>".data))) = none
        exact tryPOpenBlock_none_of_head _ (by decide)
      · show (tryPOpenBlock "<ol".data) ('>' :: (m ++ "</p>".data)) = none
        exact tryPOpenBlock_none_of_head _ (by decide)
      · exact absurd rfl hne
  have tryOlCloseP_id : runSub (tryBlockCloseP "</ol>".data)
      ("<p>".data ++ (m ++ "</p>".data)) =
      "<p>".data ++ (m ++ "</p>".data) := by
    apply runSub_id_of_suffix_none
    apply try_none_on_sandwich ?hA (suffix_none_of_tails (by decide)) ?ht
    case ht =>
      intro c cs hc
      exact tryBlockCloseP_none_of_head (hmem c hc)
    case hA =>
      intro a' ha hne
      have hmm : a' ∈ "<p>".data.tails := (List.mem_tails _ _).mpr ha
      fin_cases hmm
      · exact tryBlockCloseP_whole
      · show (tryBlockCloseP "</ol>".data) ('p' :: (">".data ++ (m ++ "</p>".data))) = none
        exact tryBlockCloseP_none_of_head (by decide)
      · show (tryBlockCloseP "</ol>".data) ('>' :: (m ++ "</p>".data)) = none
        exact tryBlockCloseP_none_of_head (by decide)
      · exact absurd rfl hne
  unfold cleanupL
  rw [tryPWsPClose_id, tryPOpenH_id, tryHCloseP_id, tryPOpenPre_id,
    tryPreCloseP_id, tryPOpenUl_id, tryUlCloseP_id, tryPOpenOl_id,
    tryOlCloseP_id]

/-!  ## Remaining pass identities for markup-free text -/

theorem paraScanF_id {l : List Char}
    (h : ∀ cs, ¬ ('\n' :: '\n' :: cs <:+ l)) : ∀ f, paraScanF f l = l := by
  induction l with
  | nil => exact paraScanF_nil
  | cons c cs ih =>
    have ih' : ∀ f, paraScanF f cs = cs :=
      ih (fun cs' hs => h cs' (hs.trans (List.suffix_cons c cs)))
    intro f
    cases f with
    | zero => rfl
    | succ n =>
      rw [paraScanF_cons n (fun cs' he => h cs' (he ▸ List.suffix_refl _)),
        ih' n]

theorem paraScan_id {l : List Char}
    (h : ∀ cs, ¬ ('\n' :: '\n' :: cs <:+ l)) : paraScan l = l :=
  paraScanF_id h l.length

theorem headerLine_id_of_head {line : List Char}
    (h : ∀ c cs, line = c :: cs → c ≠ '#') : headerLine line = line := by
  cases line with
  | nil => rfl
  | cons c cs =>
    have hb : (('#' : Char) == c) = false :=
      beq_eq_false_iff_ne.mpr (fun he => h c cs rfl he.symm)
    unfold headerLine
    rw [show "# ".data = '#' :: " ".data from rfl,
      isPrefixOf_cons_false _ _ hb,
      show "## ".data = '#' :: "# ".data from rfl,
      isPrefixOf_cons_false _ _ hb,
      show "### ".data = '#' :: "## ".data from rfl,
      isPrefixOf_cons_false _ _ hb,
      show "#### ".data = '#' :: "### ".data from rfl,
      isPrefixOf_cons_false _ _ hb]
    simp

theorem headersPassL_id {l : List Char}
    (h : ∀ line ∈ splitOnC '\n' l, headerLine line = line) :
    headersPassL l = l := by
  unfold headersPassL
  rw [List.map_congr_left h, List.map_id', joinC_splitOnC]

theorem orderedRest_none_of_head {c : Char} {cs : List Char}
    (h : c.isDigit = false) : orderedRest (c :: cs) = none := by
  unfold orderedRest
  rw [List.takeWhile_cons_of_neg (by simp [h])]
  simp

theorem listStep_plain {line : List Char}
    (h : ∀ c cs, line = c :: cs → c ≠ '#' ∧ c ≠ '-' ∧ c.isDigit = false) :
    ∀ st, listStep st line =
      (LKind.closed, if st = LKind.closed then [line]
       else [closeTagOf st, line]) := by
  intro st
  cases line with
  | nil =>
    cases st <;> rfl
  | cons c cs =>
    obtain ⟨_, hdash, hdig⟩ := h c cs rfl
    have hb : (('-' : Char) == c) = false :=
      beq_eq_false_iff_ne.mpr (fun he => hdash he.symm)
    unfold listStep
    rw [show "- [ ]".data = '-' :: " [ ]".data from rfl,
      isPrefixOf_cons_false _ _ hb,
      show "- [x]".data = '-' :: " [x]".data from rfl,
      isPrefixOf_cons_false _ _ hb,
      show "- ".data = '-' :: " ".data from rfl,
      isPrefixOf_cons_false _ _ hb,
      orderedRest_none_of_head hdig]
    simp only [Bool.false_and, Bool.false_eq_true, if_false]
    split <;> rfl

theorem listScan_plain {lines : List (List Char)}
    (h : ∀ line ∈ lines,
      ∀ c cs, line = c :: cs → c ≠ '#' ∧ c ≠ '-' ∧ c.isDigit = false) :
    listScan LKind.closed lines = lines := by
  induction lines with
  | nil => rfl
  | cons ln rest ih =>
    rw [listScan, listStep_plain (h ln (List.mem_cons_self _ _)) LKind.closed]
    simp only [if_pos rfl]
    show [ln] ++ listScan LKind.closed rest = ln :: rest
    rw [ih (fun line hm => h line (List.mem_cons_of_mem _ hm))]
    rfl

theorem listPassL_id {l : List Char}
    (h : ∀ line ∈ splitOnC '\n' l,
      ∀ c cs, line = c :: cs → c ≠ '#' ∧ c ≠ '-' ∧ c.isDigit = false) :
    listPassL l = l := by
  unfold listPassL
  rw [listScan_plain h, joinC_splitOnC]

theorem not_mem_sandwich {k : Char} {A m B : List Char} (hA : k ∉ A)
    (hm : k ∉ m) (hB : k ∉ B) : k ∉ A ++ (m ++ B) := by
  intro h
  rcases List.mem_append.mp h with h | h
  · exact hA h
  · rcases List.mem_append.mp h with h | h
    · exact hm h
    · exact hB h

theorem badgesL_id {l : List Char} (h1 : '✅' ∉ l) (h2 : '❌' ∉ l)
    (h3 : '⚠' ∉ l) (h4 : '🔄' ∉ l) : badgesL l = l := by
  unfold badgesL
  rw [runSub_id_of_not_mem (fun c cs hc => tryBadgeOk_none_of_head hc) h1,
    runSub_id_of_not_mem (fun c cs hc => tryBadgeX_none_of_head hc) h2,
    runSub_id_of_not_mem (fun c cs hc => tryBadgeWarn_none_of_head hc) h3,
    runSub_id_of_not_mem (fun c cs hc => tryBadgeProg_none_of_head hc) h4]

/-- The common tail of the pipeline on markup-free text: once the heading,
`make_id`, fence and inline-code passes are known to leave `m` unchanged and
`m` is free of the remaining passes' trigger characters, the engine output
is exactly `m` wrapped in a single paragraph element. -/
theorem convertL_paragraph_core (m : List Char)
    (hHeaders : headersPassL m = m)
    (hH2 : runSub tryH2 m = m)
    (hFence : runSub tryFence m = m)
    (hCode : runSub tryInlineCode m = m)
    (hStar : '*' ∉ m) (hBr : '[' ∉ m) (hLt : '<' ∉ m) (hPipe : '|' ∉ m)
    (hG1 : '✅' ∉ m) (hG2 : '❌' ∉ m) (hG3 : '⚠' ∉ m) (hG4 : '🔄' ∉ m)
    (hList : listPassL m = m)
    (hPara : paraScan m = m)
    (hWs : m.dropWhile isWsPy ≠ []) :
    convertL m = "<p>".data ++ (m ++ "</p>".data) := by
  unfold convertL
  rw [hHeaders, hH2, hFence, hCode,
    runSub_id_of_not_mem (fun c cs hc => tryBold_none_of_head hc) hStar,
    runSub_id_of_not_mem (fun c cs hc => tryItalic_none_of_head hc) hStar,
    runSub_id_of_not_mem (fun c cs hc => tryLink_none_of_head hc) hBr,
    hList]
  have hwrap : paraPassL m = "<p>".data ++ (m ++ "</p>".data) := by
    unfold paraPassL
    rw [hPara, List.append_assoc]
  rw [hwrap, cleanupL_id hLt hWs,
    badgesL_id (not_mem_sandwich (by decide) hG1 (by decide))
      (not_mem_sandwich (by decide) hG2 (by decide))
      (not_mem_sandwich (by decide) hG3 (by decide))
      (not_mem_sandwich (by decide) hG4 (by decide)),
    tablePassL_id_of_not_mem
      (not_mem_sandwich (by decide) hPipe (by decide))]

theorem lineOkHead_spec {line : List Char} (h : lineOkHead line = true) :
    ∀ c cs, line = c :: cs → c ≠ '#' ∧ c ≠ '-' ∧ c.isDigit = false := by
  intro c cs he
  subst he
  simp [lineOkHead] at h
  exact ⟨h.1.1, h.1.2, h.2⟩

theorem noNN_of_no_newline {l : List Char} (h : '\n' ∉ l) :
    ∀ cs, ¬ ('\n' :: '\n' :: cs <:+ l) :=
  fun cs hs => h (hs.sublist.subset (by simp))

theorem noNN_of_tails {l : List Char}
    (h : ∀ t ∈ l.tails, startsNN t = false) :
    ∀ cs, ¬ ('\n' :: '\n' :: cs <:+ l) := by
  intro cs hs
  have h2 := h _ ((List.mem_tails _ _).mpr hs)
  simp [startsNN] at h2

/-- Claim C7, amended: for input text containing no block markup (no line
starts with a heading marker, bullet, or ordered-item digit), no inline or
HTML markup characters, no status glyphs, no table pipes, no blank line, and
at least one non-whitespace character, the engine's output is exactly one
paragraph element wrapping the input verbatim — the input is NOT trimmed,
and a blank line would split the text into two paragraph elements. -/
theorem c7_plain_text_wrapped (s : String)
    (hws : s.data.dropWhile isWsPy ≠ [])
    (hbt : '`' ∉ s.data) (hst : '*' ∉ s.data) (hbr : '[' ∉ s.data)
    (hlt : '<' ∉ s.data) (hpi : '|' ∉ s.data)
    (hg1 : '✅' ∉ s.data) (hg2 : '❌' ∉ s.data) (hg3 : '⚠' ∉ s.data)
    (hg4 : '🔄' ∉ s.data)
    (hnn : ∀ cs, ¬ ('\n' :: '\n' :: cs <:+ s.data))
    (hlines : ∀ line ∈ splitOnC '\n' s.data, lineOkHead line = true) :
    convert_md_to_html s =
      String.mk ("<p>".data ++ (s.data ++ "</p>".data)) := by
  unfold convert_md_to_html
  refine congrArg String.mk ?_
  apply convertL_paragraph_core _ ?_ ?_ ?_ ?_ hst hbr hlt hpi hg1 hg2 hg3
    hg4 ?_ ?_ hws
  · apply headersPassL_id
    intro line hm
    apply headerLine_id_of_head
    intro c cs he
    exact (lineOkHead_spec (hlines line hm) c cs he).1
  · exact runSub_id_of_not_mem (fun c cs hc => tryH2_none_of_head hc) hlt
  · exact runSub_id_of_not_mem (fun c cs hc => tryFence_none_of_head hc) hbt
  · exact runSub_id_of_not_mem
      (fun c cs hc => tryInlineCode_none_of_head hc) hbt
  · exact listPassL_id
      (fun line hm => lineOkHead_spec (hlines line hm))
  · exact paraScan_id hnn

/-- Witness for the amended C7 at the two-line markup-free input. -/
theorem c7_plain_text_wrapped_witness :
    convert_md_to_html "hi\nthere" =
      String.mk ("<p>".data ++ ("hi\nthere".data ++ "</p>".data)) := by
  apply c7_plain_text_wrapped "hi\nthere" (by decide) (by decide) (by decide)
    (by decide) (by decide) (by decide) (by decide) (by decide) (by decide)
    (by decide)
  · exact noNN_of_tails (by decide)
  · decide

/-!  ## Claim C4: unterminated fence -/

theorem not_mem_append2 {k : Char} {A B : List Char} (hA : k ∉ A)
    (hB : k ∉ B) : k ∉ A ++ B := by
  intro h
  rcases List.mem_append.mp h with h | h
  · exact hA h
  · exact hB h

theorem findFenceClose_none {l : List Char} (h : '`' ∉ l) :
    findFenceClose l = none := by
  induction l with
  | nil => rfl
  | cons c cs ih =>
    have hc : ¬(('`' : Char) = c) :=
      fun he => h (he ▸ List.mem_cons_self c cs)
    unfold findFenceClose
    rw [show "```".data = '`' :: "``".data from rfl,
      isPrefixOf_cons_false _ _ (beq_eq_false_iff_ne.mpr hc),
      ih (fun hm => h (List.mem_cons_of_mem c hm))]
    simp

theorem runSub_tryFence_fence_marker {r : List Char} (hbt : '`' ∉ r) :
    runSub tryFence ("```\n".data ++ (r ++ [])) =
      "```\n".data ++ (r ++ []) := by
  apply runSub_id_of_suffix_none
  apply try_none_on_sandwich ?hA (suffix_none_of_tails (by decide)) ?ht
  case ht =>
    intro c cs hc
    exact tryFence_none_of_head (fun he => hbt (he ▸ hc))
  case hA =>
    intro a' ha hne
    have hmm : a' ∈ "```\n".data.tails := (List.mem_tails _ _).mpr ha
    fin_cases hmm
    · show tryFence ("```".data ++ ('\n' :: (r ++ []))) = none
      unfold tryFence
      rw [isPrefixOf_append_self,
        show ("```".data ++ ('\n' :: (r ++ []))).drop 3 = '\n' :: (r ++ [])
          from List.drop_left' (by decide),
        List.dropWhile_cons_of_neg (by decide)]
      have hf : findFenceClose r = none := findFenceClose_none hbt
      simp [hf]
    · show tryFence ('`' :: '`' :: '\n' :: (r ++ [])) = none
      unfold tryFence
      rw [show ("```".data.isPrefixOf ('`' :: '`' :: '\n' :: (r ++ []))) =
        false from by
          simp [List.isPrefixOf, (by decide : (('`' : Char) == '\n') = false)]]
      simp
    · show tryFence ('`' :: '\n' :: (r ++ [])) = none
      unfold tryFence
      rw [show ("```".data.isPrefixOf ('`' :: '\n' :: (r ++ []))) = false
        from by
          simp [List.isPrefixOf, (by decide : (('`' : Char) == '\n') = false)]]
      simp
    · show tryFence ('\n' :: (r ++ [])) = none
      exact tryFence_none_of_head (by decide)
    · exact absurd rfl hne

theorem runSub_tryInlineCode_fence_marker {r : List Char} (hbt : '`' ∉ r) :
    runSub tryInlineCode ("```\n".data ++ (r ++ [])) =
      "```\n".data ++ (r ++ []) := by
  apply runSub_id_of_suffix_none
  apply try_none_on_sandwich ?hA (suffix_none_of_tails (by decide)) ?ht
  case ht =>
    intro c cs hc
    exact tryInlineCode_none_of_head (fun he => hbt (he ▸ hc))
  case hA =>
    intro a' ha hne
    have hmm : a' ∈ "```\n".data.tails := (List.mem_tails _ _).mpr ha
    fin_cases hmm
    · show tryInlineCode ('`' :: ('`' :: '`' :: '\n' :: (r ++ []))) = none
      unfold tryInlineCode
      simp [List.takeWhile_cons, List.dropWhile_cons]
    · show tryInlineCode ('`' :: ('`' :: '\n' :: (r ++ []))) = none
      unfold tryInlineCode
      simp [List.takeWhile_cons, List.dropWhile_cons]
    · show tryInlineCode ('`' :: ('\n' :: (r ++ []))) = none
      have hall : ∀ x ∈ '\n' :: (r ++ []), (x != '`') = true := by
        intro x hx
        rcases List.mem_cons.mp hx with rfl | hx2
        · decide
        · exact bne_true_of_ne
            (fun he => not_mem_append2 hbt (by decide) (he ▸ hx2))
      have hd : List.dropWhile (fun c => c != '`') r = [] := by
        apply List.dropWhile_eq_nil_iff.mpr
        intro x hx
        exact bne_true_of_ne (fun he => hbt (he ▸ hx))
      unfold tryInlineCode
      simp [hd]
    · show tryInlineCode ('\n' :: (r ++ [])) = none
      exact tryInlineCode_none_of_head (by decide)
    · exact absurd rfl hne

/-- Claim C4, amended: on input consisting of an unterminated fence marker
followed by text with no other markup, the engine neither throws nor hangs
(it is a total function, see the no-crash theorem) and leaves the fence
marker and the following text literally in the output, wrapped as a
paragraph.  In general the text after an unmatched fence is still processed
by the remaining passes — markup in it is converted, not preserved (see the
counterexample) — so it is literal only when it contains no other markup. -/
theorem c4_unterminated_fence (r : List Char)
    (hbt : '`' ∉ r) (hst : '*' ∉ r) (hbr : '[' ∉ r) (hlt : '<' ∉ r)
    (hpi : '|' ∉ r)
    (hg1 : '✅' ∉ r) (hg2 : '❌' ∉ r) (hg3 : '⚠' ∉ r) (hg4 : '🔄' ∉ r)
    (hnn : ∀ cs, ¬ ('\n' :: '\n' :: cs <:+ r))
    (hhead : ∀ cs', r ≠ '\n' :: cs')
    (hlines : ∀ line ∈ splitOnC '\n' r, lineOkHead line = true) :
    convertL ("```\n".data ++ r) =
      "<p>".data ++ (("```\n".data ++ r) ++ "</p>".data) := by
  have hsplit : splitOnC '\n' ("```\n".data ++ r) =
      "```".data :: splitOnC '\n' r := by
    show splitOnC '\n' ("```".data ++ '\n' :: r) = _
    exact splitOnC_append_cons r (by decide)
  have hlines2 : ∀ line ∈ splitOnC '\n' ("```\n".data ++ r),
      lineOkHead line = true := by
    rw [hsplit]
    intro line hm
    rcases List.mem_cons.mp hm with rfl | hm2
    · decide
    · exact hlines line hm2
  apply convertL_paragraph_core _ ?_ ?_ ?_ ?_
    (not_mem_append2 (by decide) hst) (not_mem_append2 (by decide) hbr)
    (not_mem_append2 (by decide) hlt) (not_mem_append2 (by decide) hpi)
    (not_mem_append2 (by decide) hg1) (not_mem_append2 (by decide) hg2)
    (not_mem_append2 (by decide) hg3) (not_mem_append2 (by decide) hg4)
    ?_ ?_ ?_
  · apply headersPassL_id
    intro line hm
    apply headerLine_id_of_head
    intro c cs he
    exact (lineOkHead_spec (hlines2 line hm) c cs he).1
  · exact runSub_id_of_not_mem (fun c cs hc => tryH2_none_of_head hc)
      (not_mem_append2 (by decide) hlt)
  · have h1 := runSub_tryFence_fence_marker hbt
    simpa using h1
  · have h1 := runSub_tryInlineCode_fence_marker hbt
    simpa using h1
  · exact listPassL_id (fun line hm => lineOkHead_spec (hlines2 line hm))
  · apply paraScan_id
    intro cs hs
    rcases suffix_append_cases hs with h | ⟨a', ha1, ha2, heq⟩
    · exact hnn cs h
    · have hmm : a' ∈ "```\n".data.tails := (List.mem_tails _ _).mpr ha1
      fin_cases hmm
      · rw [show "```\n".data ++ r = '`' :: ("``\n".data ++ r) from rfl]
          at heq
        injection heq with h1 _
        exact absurd h1 (by decide)
      · rw [show "``\n".data ++ r = '`' :: ("`\n".data ++ r) from rfl] at heq
        injection heq with h1 _
        exact absurd h1 (by decide)
      · rw [show "`\n".data ++ r = '`' :: ("\n".data ++ r) from rfl] at heq
        injection heq with h1 _
        exact absurd h1 (by decide)
      · rw [show "\n".data ++ r = '\n' :: r from rfl] at heq
        injection heq with _ h2
        exact hhead cs h2.symm
      · exact absurd rfl ha2
  · show ('`' :: ("``\n".data ++ r)).dropWhile isWsPy ≠ []
    rw [List.dropWhile_cons_of_neg (by decide)]
    simp

/-- Witness for the amended C4 at `hello world` after the fence marker. -/
theorem c4_unterminated_fence_witness :
    convertL ("```\n".data ++ "hello world".data) =
      "<p>".data ++ (("```\n".data ++ "hello world".data) ++ "</p>".data) := by
  apply c4_unterminated_fence "hello world".data (by decide) (by decide)
    (by decide) (by decide) (by decide) (by decide) (by decide) (by decide)
    (by decide)
  · exact noNN_of_tails (by decide)
  · intro cs' he
    injection he with h1 _
    exact absurd h1 (by decide)
  · decide

/-!  ## Claim C10: ordered-list numerals are discarded -/

theorem tryPWsPClose_none_of_second {c2 : Char} {cs : List Char}
    (h : (('p' : Char) == c2) = false) :
    tryPWsPClose ('<' :: c2 :: cs) = none := by
  unfold tryPWsPClose
  rw [show ("<p>".data.isPrefixOf ('<' :: c2 :: cs)) = false from by
    simp [List.isPrefixOf, h]]
  simp

theorem tryPOpenH_none_of_second {c2 : Char} {cs : List Char}
    (h : (('p' : Char) == c2) = false) :
    tryPOpenH ('<' :: c2 :: cs) = none := by
  unfold tryPOpenH
  rw [show ("<p>".data.isPrefixOf ('<' :: c2 :: cs)) = false from by
    simp [List.isPrefixOf, h]]
  simp

theorem tryPOpenBlock_none_of_second (tag : List Char) {c2 : Char}
    {cs : List Char} (h : (('p' : Char) == c2) = false) :
    tryPOpenBlock tag ('<' :: c2 :: cs) = none := by
  unfold tryPOpenBlock
  rw [show ("<p>".data.isPrefixOf ('<' :: c2 :: cs)) = false from by
    simp [List.isPrefixOf, h]]
  simp

theorem tryHCloseP_none_of_second {c2 : Char} {cs : List Char}
    (h : c2 ≠ '/') : tryHCloseP ('<' :: c2 :: cs) = none := by
  unfold tryHCloseP
  split
  · next heq =>
    injection heq with _ h2
    injection h2 with h3 _
    exact absurd h3 h
  · rfl

theorem tryBlockCloseP_none_of_second {tc c2 : Char}
    {trr cs : List Char} (h : (tc == c2) = false) :
    tryBlockCloseP ('<' :: tc :: trr) ('<' :: c2 :: cs) = none := by
  unfold tryBlockCloseP
  rw [show ((('<' :: tc :: trr).isPrefixOf ('<' :: c2 :: cs)) = false) from by
    simp [List.isPrefixOf, h]]
  simp

theorem tryPWsPClose_after_two {y : Char} {Y : List Char}
    (hy : (('/' : Char) == y) = false) :
    tryPWsPClose ('<' :: 'p' :: '>' :: ('<' :: y :: Y)) = none := by
  unfold tryPWsPClose
  rw [show ("<p>".data.isPrefixOf
      ('<' :: 'p' :: '>' :: ('<' :: y :: Y))) = true from by
    simp [List.isPrefixOf]]
  rw [show (('<' :: 'p' :: '>' :: ('<' :: y :: Y)).drop 3) = '<' :: y :: Y
    from rfl]
  rw [List.dropWhile_cons_of_neg (by decide)]
  show (if "</p>".data.isPrefixOf ('<' :: y :: Y) = true
      then some (([] : List Char), List.drop 4 ('<' :: y :: Y)) else none)
      = none
  rw [show ("</p>".data.isPrefixOf ('<' :: y :: Y)) = false from by
    simp [List.isPrefixOf, hy]]
  rfl

theorem tryPOpenH_after_two {y : Char} {Y : List Char} (hy : y ≠ 'h') :
    tryPOpenH ('<' :: 'p' :: '>' :: ('<' :: y :: Y)) = none := by
  unfold tryPOpenH
  rw [show ("<p>".data.isPrefixOf
      ('<' :: 'p' :: '>' :: ('<' :: y :: Y))) = true from by
    simp [List.isPrefixOf]]
  rw [show (('<' :: 'p' :: '>' :: ('<' :: y :: Y)).drop 3) = '<' :: y :: Y
    from rfl]
  rw [List.dropWhile_cons_of_neg (by decide)]
  rw [if_pos rfl]
  split
  · next heq =>
    injection heq with _ h2
    injection h2 with h3 _
    exact absurd h3 hy
  · rfl

theorem tryPOpenBlock_after_two {tc : Char} {trr : List Char} {y : Char}
    {Y : List Char} (hy : (tc == y) = false) :
    tryPOpenBlock ('<' :: tc :: trr)
      ('<' :: 'p' :: '>' :: ('<' :: y :: Y)) = none := by
  unfold tryPOpenBlock
  rw [show ("<p>".data.isPrefixOf
      ('<' :: 'p' :: '>' :: ('<' :: y :: Y))) = true from by
    simp [List.isPrefixOf]]
  rw [show (('<' :: 'p' :: '>' :: ('<' :: y :: Y)).drop 3) = '<' :: y :: Y
    from rfl]
  rw [List.dropWhile_cons_of_neg (by decide)]
  show (if ('<' :: tc :: trr).isPrefixOf ('<' :: y :: Y) = true
      then some (List.takeWhile isWsPy ('<' :: y :: Y) ++ '<' :: tc :: trr,
        List.drop ('<' :: tc :: trr).length ('<' :: y :: Y))
      else none) = none
  rw [show ((('<' :: tc :: trr).isPrefixOf ('<' :: y :: Y)) = false) from by
    simp [List.isPrefixOf, hy]]
  rfl

theorem not_mem_of_all_digits {k : Char} {n : List Char}
    (hnd : ∀ c ∈ n, c.isDigit = true) (hk : k.isDigit = false) : k ∉ n := by
  intro hm
  rw [hnd k hm] at hk
  simp at hk

theorem not_mem_append_ord {k : Char} {n t : List Char}
    (h1 : k ∉ n) (h2 : k ≠ '.') (h3 : k ≠ ' ') (h4 : k ∉ t) :
    k ∉ n ++ ('.' :: ' ' :: t) := by
  intro hm
  rcases List.mem_append.mp hm with hm | hm
  · exact h1 hm
  · rcases List.mem_cons.mp hm with he | hm
    · exact h2 he
    · rcases List.mem_cons.mp hm with he | hm
      · exact h3 he
      · exact h4 hm

theorem orderedRest_digits {n t : List Char} (hn : n ≠ [])
    (hnd : ∀ c ∈ n, c.isDigit = true) (ht : t ≠ []) :
    orderedRest (n ++ ('.' :: ' ' :: t)) = some t := by
  have htake : (n ++ ('.' :: ' ' :: t)).takeWhile Char.isDigit = n :=
    takeWhile_append_stop _ hnd (by decide)
  have hdw : (n ++ ('.' :: ' ' :: t)).dropWhile Char.isDigit =
      '.' :: ' ' :: t := dropWhile_append_stop _ hnd (by decide)
  unfold orderedRest
  rw [htake, isEmpty_false_of_ne_nil hn, hdw]
  simp [isEmpty_false_of_ne_nil ht]

theorem listStep_ordered_closed {n t : List Char} (hn : n ≠ [])
    (hnd : ∀ c ∈ n, c.isDigit = true) (ht : t ≠ []) :
    listStep LKind.closed (n ++ ('.' :: ' ' :: t)) =
      (LKind.olOpen, ["<ol>".data, "<li>".data ++ t ++ "</li>".data]) := by
  have hord : orderedRest (n ++ ('.' :: ' ' :: t)) = some t :=
    orderedRest_digits hn hnd ht
  obtain ⟨nc, n2, rfl⟩ : ∃ nc n2, n = nc :: n2 := by
    cases n with
    | nil => exact absurd rfl hn
    | cons a b => exact ⟨a, b, rfl⟩
  have hdig : nc.isDigit = true := hnd nc (List.mem_cons_self _ _)
  have hdash : (('-' : Char) == nc) = false := by
    apply beq_eq_false_iff_ne.mpr
    intro he
    rw [← he] at hdig
    exact absurd hdig (by decide)
  unfold listStep
  rw [List.cons_append,
    show "- [ ]".data = '-' :: " [ ]".data from rfl,
    isPrefixOf_cons_false _ _ hdash,
    show "- [x]".data = '-' :: " [x]".data from rfl,
    isPrefixOf_cons_false _ _ hdash,
    show "- ".data = '-' :: " ".data from rfl,
    isPrefixOf_cons_false _ _ hdash,
    ← List.cons_append, hord]
  simp

theorem listPassL_ordered {n t : List Char} (hn : n ≠ [])
    (hnd : ∀ c ∈ n, c.isDigit = true) (ht : t ≠ [])
    (hnl : '\n' ∉ n ++ ('.' :: ' ' :: t)) :
    listPassL (n ++ ('.' :: ' ' :: t)) =
      "<ol>\n<li>".data ++ (t ++ "</li>\n</ol>".data) := by
  unfold listPassL
  rw [splitOnC_not_mem hnl,
    show listScan LKind.closed [n ++ ('.' :: ' ' :: t)] =
      (listStep LKind.closed (n ++ ('.' :: ' ' :: t))).2 ++
        listScan (listStep LKind.closed (n ++ ('.' :: ' ' :: t))).1 []
      from rfl,
    listStep_ordered_closed hn hnd ht]
  show "<ol>".data ++ '\n' ::
      (("<li>".data ++ t ++ "</li>".data) ++ '\n' :: "</ol>".data) = _
  rw [List.append_assoc ("<li>".data ++ t) "</li>".data
    ('\n' :: "</ol>".data),
    List.append_assoc "<li>".data t ("</li>".data ++ '\n' :: "</ol>".data)]
  rfl

theorem nn_ne_cons {x : Char} {xs : List Char} (hx : x ≠ '\n')
    (cs : List Char) : ¬('\n' :: '\n' :: cs = x :: xs) := by
  intro he
  injection he with h1 _
  exact hx h1.symm

theorem nn_ne_cons2 {y : Char} {ys : List Char} (hy : y ≠ '\n')
    (cs : List Char) : ¬('\n' :: '\n' :: cs = '\n' :: y :: ys) := by
  intro he
  injection he with _ h2
  injection h2 with h3 _
  exact hy h3.symm

theorem paraScan_ordered {t : List Char} (hnl : '\n' ∉ t) :
    paraScan ("<ol>\n<li>".data ++ (t ++ "</li>\n</ol>".data)) =
      "<ol>\n<li>".data ++ (t ++ "</li>\n</ol>".data) := by
  apply paraScan_id
  intro cs hs
  rcases suffix_append_cases hs with hs1 | ⟨a', ha1, ha2, heq⟩
  · rcases suffix_append_cases hs1 with hs2 | ⟨t', ht1, ht2, heq⟩
    · exact noNN_of_tails (by decide) cs hs2
    · obtain ⟨c0, t2, rfl⟩ : ∃ c0 t2, t' = c0 :: t2 := by
        cases t' with
        | nil => exact absurd rfl ht2
        | cons a b => exact ⟨a, b, rfl⟩
      have hc0 : c0 ∈ t := ht1.subset (List.mem_cons_self _ _)
      rw [List.cons_append] at heq
      injection heq with h1 _
      exact hnl (by rw [h1]; exact hc0)
  · have hmm : a' ∈ "<ol>\n<li>".data.tails := (List.mem_tails _ _).mpr ha1
    fin_cases hmm
    · exact absurd heq (nn_ne_cons (by decide) cs)
    · exact absurd heq (nn_ne_cons (by decide) cs)
    · exact absurd heq (nn_ne_cons (by decide) cs)
    · exact absurd heq (nn_ne_cons (by decide) cs)
    · exact absurd heq (nn_ne_cons2 (by decide) cs)
    · exact absurd heq (nn_ne_cons (by decide) cs)
    · exact absurd heq (nn_ne_cons (by decide) cs)
    · exact absurd heq (nn_ne_cons (by decide) cs)
    · exact absurd heq (nn_ne_cons (by decide) cs)
    · exact absurd rfl ha2

theorem cleanupL_ordered {t : List Char} (hlt : '<' ∉ t) :
    cleanupL ("<p><ol>\n<li>".data ++ (t ++ "</li>\n</ol></p>".data)) =
      "<ol>\n<li>".data ++ (t ++ "</li>\n</ol>".data) := by
  have hmem : ∀ c, c ∈ t → c ≠ '<' := fun c hc he => hlt (he ▸ hc)
  have p1 : runSub tryPWsPClose
      ("<p><ol>\n<li>".data ++ (t ++ "</li>\n</ol></p>".data)) =
      "<p><ol>\n<li>".data ++ (t ++ "</li>\n</ol></p>".data) := by
    apply runSub_id_of_suffix_none
    apply try_none_on_sandwich ?hA (suffix_none_of_tails (by decide)) ?ht
    case ht =>
      intro c cs hc
      exact tryPWsPClose_none_of_head (hmem c hc)
    case hA =>
      intro a' ha hne
      have hmm : a' ∈ "<p><ol>\n<li>".data.tails := (List.mem_tails _ _).mpr ha
      fin_cases hmm
      · exact tryPWsPClose_after_two (by decide)
      · exact tryPWsPClose_none_of_head (by decide)
      · exact tryPWsPClose_none_of_head (by decide)
      · exact tryPWsPClose_none_of_second (by decide)
      · exact tryPWsPClose_none_of_head (by decide)
      · exact tryPWsPClose_none_of_head (by decide)
      · exact tryPWsPClose_none_of_head (by decide)
      · exact tryPWsPClose_none_of_head (by decide)
      · exact tryPWsPClose_none_of_second (by decide)
      · exact tryPWsPClose_none_of_head (by decide)
      · exact tryPWsPClose_none_of_head (by decide)
      · exact tryPWsPClose_none_of_head (by decide)
      · exact absurd rfl hne
  have p2 : runSub tryPOpenH
      ("<p><ol>\n<li>".data ++ (t ++ "</li>\n</ol></p>".data)) =
      "<p><ol>\n<li>".data ++ (t ++ "</li>\n</ol></p>".data) := by
    apply runSub_id_of_suffix_none
    apply try_none_on_sandwich ?hA (suffix_none_of_tails (by decide)) ?ht
    case ht =>
      intro c cs hc
      exact tryPOpenH_none_of_head (hmem c hc)
    case hA =>
      intro a' ha hne
      have hmm : a' ∈ "<p><ol>\n<li>".data.tails := (List.mem_tails _ _).mpr ha
      fin_cases hmm
      · exact tryPOpenH_after_two (by decide)
      · exact tryPOpenH_none_of_head (by decide)
      · exact tryPOpenH_none_of_head (by decide)
      · exact tryPOpenH_none_of_second (by decide)
      · exact tryPOpenH_none_of_head (by decide)
      · exact tryPOpenH_none_of_head (by decide)
      · exact tryPOpenH_none_of_head (by decide)
      · exact tryPOpenH_none_of_head (by decide)
      · exact tryPOpenH_none_of_second (by decide)
      · exact tryPOpenH_none_of_head (by decide)
      · exact tryPOpenH_none_of_head (by decide)
      · exact tryPOpenH_none_of_head (by decide)
      · exact absurd rfl hne
  have p3 : runSub tryHCloseP
      ("<p><ol>\n<li>".data ++ (t ++ "</li>\n</ol></p>".data)) =
      "<p><ol>\n<li>".data ++ (t ++ "</li>\n</ol></p>".data) := by
    apply runSub_id_of_suffix_none
    apply try_none_on_sandwich ?hA (suffix_none_of_tails (by decide)) ?ht
    case ht =>
      intro c cs hc
      exact tryHCloseP_none_of_head (hmem c hc)
    case hA =>
      intro a' ha hne
      have hmm : a' ∈ "<p><ol>\n<li>".data.tails := (List.mem_tails _ _).mpr ha
      fin_cases hmm
      · exact tryHCloseP_none_of_second (by decide)
      · exact tryHCloseP_none_of_head (by decide)
      · exact tryHCloseP_none_of_head (by decide)
      · exact tryHCloseP_none_of_second (by decide)
      · exact tryHCloseP_none_of_head (by decide)
      · exact tryHCloseP_none_of_head (by decide)
      · exact tryHCloseP_none_of_head (by decide)
      · exact tryHCloseP_none_of_head (by decide)
      · exact tryHCloseP_none_of_second (by decide)
      · exact tryHCloseP_none_of_head (by decide)
      · exact tryHCloseP_none_of_head (by decide)
      · exact tryHCloseP_none_of_head (by decide)
      · exact absurd rfl hne
  have p4 : runSub (tryPOpenBlock "<pre".data)
      ("<p><ol>\n<li>".data ++ (t ++ "</li>\n</ol></p>".data)) =
      "<p><ol>\n<li>".data ++ (t ++ "</li>\n</ol></p>".data) := by
    apply runSub_id_of_suffix_none
    apply try_none_on_sandwich ?hA (suffix_none_of_tails (by decide)) ?ht
    case ht =>
      intro c cs hc
      exact tryPOpenBlock_none_of_head _ (hmem c hc)
    case hA =>
      intro a' ha hne
      have hmm : a' ∈ "<p><ol>\n<li>".data.tails := (List.mem_tails _ _).mpr ha
      fin_cases hmm
      · exact tryPOpenBlock_after_two (by decide)
      · exact tryPOpenBlock_none_of_head _ (by decide)
      · exact tryPOpenBlock_none_of_head _ (by decide)
      · exact tryPOpenBlock_none_of_second _ (by decide)
      · exact tryPOpenBlock_none_of_head _ (by decide)
      · exact tryPOpenBlock_none_of_head _ (by decide)
      · exact tryPOpenBlock_none_of_head _ (by decide)
      · exact tryPOpenBlock_none_of_head _ (by decide)
      · exact tryPOpenBlock_none_of_second _ (by decide)
      · exact tryPOpenBlock_none_of_head _ (by decide)
      · exact tryPOpenBlock_none_of_head _ (by decide)
      · exact tryPOpenBlock_none_of_head _ (by decide)
      · exact absurd rfl hne
  have p5 : runSub (tryBlockCloseP "</pre>".data)
      ("<p><ol>\n<li>".data ++ (t ++ "</li>\n</ol></p>".data)) =
      "<p><ol>\n<li>".data ++ (t ++ "</li>\n</ol></p>".data) := by
    apply runSub_id_of_suffix_none
    apply try_none_on_sandwich ?hA (suffix_none_of_tails (by decide)) ?ht
    case ht =>
      intro c cs hc
      exact tryBlockCloseP_none_of_head (hmem c hc)
    case hA =>
      intro a' ha hne
      have hmm : a' ∈ "<p><ol>\n<li>".data.tails := (List.mem_tails _ _).mpr ha
      fin_cases hmm
      · exact tryBlockCloseP_none_of_second (by decide)
      · exact tryBlockCloseP_none_of_head (by decide)
      · exact tryBlockCloseP_none_of_head (by decide)
      · exact tryBlockCloseP_none_of_second (by decide)
      · exact tryBlockCloseP_none_of_head (by decide)
      · exact tryBlockCloseP_none_of_head (by decide)
      · exact tryBlockCloseP_none_of_head (by decide)
      · exact tryBlockCloseP_none_of_head (by decide)
      · exact tryBlockCloseP_none_of_second (by decide)
      · exact tryBlockCloseP_none_of_head (by decide)
      · exact tryBlockCloseP_none_of_head (by decide)
      · exact tryBlockCloseP_none_of_head (by decide)
      · exact absurd rfl hne
  have p6 : runSub (tryPOpenBlock "<ul".data)
      ("<p><ol>\n<li>".data ++ (t ++ "</li>\n</ol></p>".data)) =
      "<p><ol>\n<li>".data ++ (t ++ "</li>\n</ol></p>".data) := by
    apply runSub_id_of_suffix_none
    apply try_none_on_sandwich ?hA (suffix_none_of_tails (by decide)) ?ht
    case ht =>
      intro c cs hc
      exact tryPOpenBlock_none_of_head _ (hmem c hc)
    case hA =>
      intro a' ha hne
      have hmm : a' ∈ "<p><ol>\n<li>".data.tails := (List.mem_tails _ _).mpr ha
      fin_cases hmm
      · exact tryPOpenBlock_after_two (by decide)
      · exact tryPOpenBlock_none_of_head _ (by decide)
      · exact tryPOpenBlock_none_of_head _ (by decide)
      · exact tryPOpenBlock_none_of_second _ (by decide)
      · exact tryPOpenBlock_none_of_head _ (by decide)
      · exact tryPOpenBlock_none_of_head _ (by decide)
      · exact tryPOpenBlock_none_of_head _ (by decide)
      · exact tryPOpenBlock_none_of_head _ (by decide)
      · exact tryPOpenBlock_none_of_second _ (by decide)
      · exact tryPOpenBlock_none_of_head _ (by decide)
      · exact tryPOpenBlock_none_of_head _ (by decide)
      · exact tryPOpenBlock_none_of_head _ (by decide)
      · exact absurd rfl hne
  have p7 : runSub (tryBlockCloseP "</ul>".data)
      ("<p><ol>\n<li>".data ++ (t ++ "</li>\n</ol></p>".data)) =
      "<p><ol>\n<li>".data ++ (t ++ "</li>\n</ol></p>".data) := by
    apply runSub_id_of_suffix_none
    apply try_none_on_sandwich ?hA (suffix_none_of_tails (by decide)) ?ht
    case ht =>
      intro c cs hc
      exact tryBlockCloseP_none_of_head (hmem c hc)
    case hA =>
      intro a' ha hne
      have hmm : a' ∈ "<p><ol>\n<li>".data.tails := (List.mem_tails _ _).mpr ha
      fin_cases hmm
      · exact tryBlockCloseP_none_of_second (by decide)
      · exact tryBlockCloseP_none_of_head (by decide)
      · exact tryBlockCloseP_none_of_head (by decide)
      · exact tryBlockCloseP_none_of_second (by decide)
      · exact tryBlockCloseP_none_of_head (by decide)
      · exact tryBlockCloseP_none_of_head (by decide)
      · exact tryBlockCloseP_none_of_head (by decide)
      · exact tryBlockCloseP_none_of_head (by decide)
      · exact tryBlockCloseP_none_of_second (by decide)
      · exact tryBlockCloseP_none_of_head (by decide)
      · exact tryBlockCloseP_none_of_head (by decide)
      · exact tryBlockCloseP_none_of_head (by decide)
      · exact absurd rfl hne
  have hfire : tryPOpenBlock "<ol".data
      ("<p><ol>\n<li>".data ++ (t ++ "</li>\n</ol></p>".data)) =
      some ("<ol".data, ">\n<li>".data ++ (t ++ "</li>\n</ol></p>".data)) :=
    rfl
  have p8 : runSub (tryPOpenBlock "<ol".data)
      ("<p><ol>\n<li>".data ++ (t ++ "</li>\n</ol></p>".data)) =
      "<ol>\n<li>".data ++ (t ++ "</li>\n</ol></p>".data) := by
    have hrest : ∀ l',
        l' <:+ ">\n<li>".data ++ (t ++ "</li>\n</ol></p>".data) →
        l' ≠ [] → tryPOpenBlock "<ol".data l' = none := by
      apply try_none_on_sandwich ?hA (suffix_none_of_tails (by decide)) ?ht
      case ht =>
        intro c cs hc
        exact tryPOpenBlock_none_of_head _ (hmem c hc)
      case hA =>
        intro a' ha hne
        have hmm : a' ∈ ">\n<li>".data.tails := (List.mem_tails _ _).mpr ha
        fin_cases hmm
        · exact tryPOpenBlock_none_of_head _ (by decide)
        · exact tryPOpenBlock_none_of_head _ (by decide)
        · exact tryPOpenBlock_none_of_second _ (by decide)
        · exact tryPOpenBlock_none_of_head _ (by decide)
        · exact tryPOpenBlock_none_of_head _ (by decide)
        · exact tryPOpenBlock_none_of_head _ (by decide)
        · exact absurd rfl hne
    have hrun := runSub_head_match_rest hfire (List.cons_ne_nil _ _) hrest
    exact hrun
  have p9 : runSub (tryBlockCloseP "</ol>".data)
      ("<ol>\n<li>".data ++ (t ++ "</li>\n</ol></p>".data)) =
      "<ol>\n<li>".data ++ (t ++ "</li>\n</ol>".data) := by
    have h1 : runSub (tryBlockCloseP "</ol>".data)
        ("<ol>\n<li>".data ++ (t ++ "</li>\n</ol></p>".data)) =
        "<ol>\n<li>".data ++ runSub (tryBlockCloseP "</ol>".data)
          (t ++ "</li>\n</ol></p>".data) := by
      apply runSub_split
      intro a' ha hne
      have hmm : a' ∈ "<ol>\n<li>".data.tails := (List.mem_tails _ _).mpr ha
      fin_cases hmm
      · exact tryBlockCloseP_none_of_second (by decide)
      · exact tryBlockCloseP_none_of_head (by decide)
      · exact tryBlockCloseP_none_of_head (by decide)
      · exact tryBlockCloseP_none_of_head (by decide)
      · exact tryBlockCloseP_none_of_head (by decide)
      · exact tryBlockCloseP_none_of_second (by decide)
      · exact tryBlockCloseP_none_of_head (by decide)
      · exact tryBlockCloseP_none_of_head (by decide)
      · exact tryBlockCloseP_none_of_head (by decide)
      · exact absurd rfl hne
    have h2 : runSub (tryBlockCloseP "</ol>".data)
        (t ++ "</li>\n</ol></p>".data) =
        t ++ runSub (tryBlockCloseP "</ol>".data) "</li>\n</ol></p>".data := by
      apply runSub_split
      intro t' hs hne
      obtain ⟨c0, t2, rfl⟩ : ∃ c0 t2, t' = c0 :: t2 := by
        cases t' with
        | nil => exact absurd rfl hne
        | cons a b => exact ⟨a, b, rfl⟩
      have hc0 : c0 ∈ t := hs.subset (List.mem_cons_self _ _)
      exact tryBlockCloseP_none_of_head (hmem c0 hc0)
    have h3 : runSub (tryBlockCloseP "</ol>".data) "</li>\n</ol></p>".data =
        "</li>\n</ol>".data := by decide
    rw [h1, h2, h3]
  unfold cleanupL
  rw [p1, p2, p3, p4, p5, p6, p7, p8, p9]

/-- The engine on a single ordered-item line `N. text` (digit run `n`, then
`. `, then a nonempty text `t` free of the other passes' trigger
characters): the numeral is consumed by the ordered-item pattern's `\d+`
group and only `text` reaches the emitted list item. -/
theorem convertL_ordered_line {n t : List Char} (hn : n ≠ [])
    (hnd : ∀ c ∈ n, c.isDigit = true) (ht : t ≠ [])
    (hnl : '\n' ∉ t) (hbt : '`' ∉ t) (hst : '*' ∉ t) (hbr : '[' ∉ t)
    (hlt : '<' ∉ t) (hpi : '|' ∉ t)
    (hg1 : '✅' ∉ t) (hg2 : '❌' ∉ t) (hg3 : '⚠' ∉ t) (hg4 : '🔄' ∉ t) :
    convertL (n ++ ('.' :: ' ' :: t)) =
      "<ol>\n<li>".data ++ (t ++ "</li>\n</ol>".data) := by
  have hS : ∀ (k : Char), k.isDigit = false → k ≠ '.' → k ≠ ' ' → k ∉ t →
      k ∉ n ++ ('.' :: ' ' :: t) := fun k hk h2 h3 h4 =>
    not_mem_append_ord (not_mem_of_all_digits hnd hk) h2 h3 h4
  have hSnl : '\n' ∉ n ++ ('.' :: ' ' :: t) :=
    hS _ (by decide) (by decide) (by decide) hnl
  have hSlt : '<' ∉ n ++ ('.' :: ' ' :: t) :=
    hS _ (by decide) (by decide) (by decide) hlt
  have hSbt : '`' ∉ n ++ ('.' :: ' ' :: t) :=
    hS _ (by decide) (by decide) (by decide) hbt
  have hSst : '*' ∉ n ++ ('.' :: ' ' :: t) :=
    hS _ (by decide) (by decide) (by decide) hst
  have hSbr : '[' ∉ n ++ ('.' :: ' ' :: t) :=
    hS _ (by decide) (by decide) (by decide) hbr
  have hHead : headersPassL (n ++ ('.' :: ' ' :: t)) =
      n ++ ('.' :: ' ' :: t) := by
    rw [headersPassL_single hSnl]
    apply headerLine_id_of_head
    intro c cs he hch
    obtain ⟨nc, n2, hn2⟩ : ∃ nc n2, n = nc :: n2 := by
      cases n with
      | nil => exact absurd rfl hn
      | cons a b => exact ⟨a, b, rfl⟩
    have hdig : nc.isDigit = true := hnd nc (by rw [hn2]; exact List.mem_cons_self _ _)
    rw [hn2, List.cons_append] at he
    injection he with h1 _
    rw [h1, hch] at hdig
    exact absurd hdig (by decide)
  unfold convertL
  rw [hHead,
    runSub_id_of_not_mem (fun c cs hc => tryH2_none_of_head hc) hSlt,
    runSub_id_of_not_mem (fun c cs hc => tryFence_none_of_head hc) hSbt,
    runSub_id_of_not_mem (fun c cs hc => tryInlineCode_none_of_head hc) hSbt,
    runSub_id_of_not_mem (fun c cs hc => tryBold_none_of_head hc) hSst,
    runSub_id_of_not_mem (fun c cs hc => tryItalic_none_of_head hc) hSst,
    runSub_id_of_not_mem (fun c cs hc => tryLink_none_of_head hc) hSbr,
    listPassL_ordered hn hnd ht hSnl]
  have hpp : paraPassL ("<ol>\n<li>".data ++ (t ++ "</li>\n</ol>".data)) =
      "<p><ol>\n<li>".data ++ (t ++ "</li>\n</ol></p>".data) := by
    unfold paraPassL
    rw [paraScan_ordered hnl,
      List.append_assoc "<p>".data
        ("<ol>\n<li>".data ++ (t ++ "</li>\n</ol>".data)) "</p>".data,
      List.append_assoc "<ol>\n<li>".data (t ++ "</li>\n</ol>".data)
        "</p>".data,
      List.append_assoc t "</li>\n</ol>".data "</p>".data]
    rfl
  rw [hpp, cleanupL_ordered hlt,
    badgesL_id (not_mem_sandwich (by decide) hg1 (by decide))
      (not_mem_sandwich (by decide) hg2 (by decide))
      (not_mem_sandwich (by decide) hg3 (by decide))
      (not_mem_sandwich (by decide) hg4 (by decide)),
    tablePassL_id_of_not_mem (not_mem_sandwich (by decide) hpi (by decide))]

/-- Claim C10: the numerals written on ordered-list items are discarded.
For an ordered-item line made of any nonempty digit run `n`, then `. `,
then a nonempty item text `t` (free of the other passes' trigger
characters, so the line reaches the list pass unchanged), the engine's
output is an ordered list whose single list item contains only `t` — the
numeral does not occur in it — and consequently two inputs that differ
only in the numeral (`n` versus `m`) produce identical output. -/
theorem c10_ordered_numeral_discarded (n m t : List Char) (hn : n ≠ [])
    (hnd : ∀ c ∈ n, c.isDigit = true) (hm : m ≠ [])
    (hmd : ∀ c ∈ m, c.isDigit = true) (ht : t ≠ [])
    (hnl : '\n' ∉ t) (hbt : '`' ∉ t) (hst : '*' ∉ t) (hbr : '[' ∉ t)
    (hlt : '<' ∉ t) (hpi : '|' ∉ t)
    (hg1 : '✅' ∉ t) (hg2 : '❌' ∉ t) (hg3 : '⚠' ∉ t) (hg4 : '🔄' ∉ t) :
    convertL (n ++ ('.' :: ' ' :: t)) =
      "<ol>\n<li>".data ++ (t ++ "</li>\n</ol>".data) ∧
    convertL (n ++ ('.' :: ' ' :: t)) = convertL (m ++ ('.' :: ' ' :: t)) := by
  have e1 := convertL_ordered_line hn hnd ht hnl hbt hst hbr hlt hpi
    hg1 hg2 hg3 hg4
  have e2 := convertL_ordered_line hm hmd ht hnl hbt hst hbr hlt hpi
    hg1 hg2 hg3 hg4
  exact ⟨e1, e1.trans e2.symm⟩

/-- Witness for C10 at the claim's own example `1. a` versus `7. a`. -/
theorem c10_ordered_numeral_discarded_witness :
    convertL ("1".data ++ ('.' :: ' ' :: "a".data)) =
      "<ol>\n<li>".data ++ ("a".data ++ "</li>\n</ol>".data) ∧
    convertL ("1".data ++ ('.' :: ' ' :: "a".data)) =
      convertL ("7".data ++ ('.' :: ' ' :: "a".data)) :=
  c10_ordered_numeral_discarded "1".data "7".data "a".data
    (by decide) (by decide) (by decide) (by decide) (by decide) (by decide)
    (by decide) (by decide) (by decide) (by decide) (by decide) (by decide)
    (by decide) (by decide) (by decide)
